import Mathlib

/-!
Verification of the nagare MCP server (`nagare/server/mcp/*.py`) against its
natural-language specification.

The Python code is shallowly embedded: Python dicts and JSON payloads become
the `Json` inductive (association lists keep insertion order, as Python dicts
do), byte strings become `List Nat`, text strings become `List Char`
(Unicode code points, as in Python `str`), timestamps become `Int`, and
fallible code returns `Except`/`Option`.
-/

namespace MCPSpec

/-- JSON values, modelling the Python dicts/lists/scalars the server
serializes.  Numbers are modelled by `Int`: every number occurring in the
claims (ids, error codes) is an integer. -/
inductive Json where
  | null : Json
  | bool (b : Bool) : Json
  | num (n : Int) : Json
  | str (s : String) : Json
  | arr (elems : List Json) : Json
  | obj (fields : List (String × Json)) : Json
deriving Repr

/-- Key lookup in a JSON object (Python `dict.get`); `null`/`none` elsewhere. -/
def Json.lookup : Json → String → Option Json
  | .obj fields, k => fields.lookup k
  | _, _ => none

/-- The JSON-RPC frames the server produces (`client.py`,
`create_rpc_request` / `create_rpc_notification` / `create_rpc_response` /
`create_rpc_error`).  The `data` field of errors is omitted: every call site
appearing in the claims passes no `data`. -/
inductive Frame where
  | request (id : Json) (method : String) (params : Json) : Frame
  | notification (method : String) (params : Json) : Frame
  | response (id : Json) (result : Json) : Frame
  | error (id : Json) (code : Int) (message : String) : Frame
deriving Repr

/-- `Client.METHOD_NOT_FOUND` (client.py line 107). -/
def METHOD_NOT_FOUND : Int := -32601

/-- `Client.INVALID_PARAMS` (client.py line 108). -/
def INVALID_PARAMS : Int := -32602

/-- `Client.INTERNAL_ERROR` (client.py line 109). -/
def INTERNAL_ERROR : Int := -32603

/-! ## Prototype / schema bridge (`prototypes.py`) -/

/-- A Python default value, at the granularity `jsonschema_to_proto`
distinguishes: a value of one of the `SIMPLE_TYPES = {str, float, int, bool}`
(kept as an AST constant) or any other object (replaced by `None`). -/
inductive PyDefault where
  | simple (v : Json) : PyDefault
  | complex : PyDefault
deriving Repr

/-- The `items` sub-schema of an `array` JSON-schema property, as consumed by
`json_to_py_type` (prototypes.py lines 74-82). -/
inductive Items where
  | mk (type : Option String) (items : Option Items) : Items
deriving Repr

/-- One parameter of a Python handler signature, as seen through
`inspect.signature` in `proto_to_jsonschema`: its name, its default
(`none` models `inspect.Parameter.empty`, i.e. no default) and the
JSON-schema type (plus array `items`) that pydantic derives from its
annotation. -/
structure Param where
  name : String
  default : Option PyDefault
  jsonType : String
  items : Option Items := none

/-- One property of the generated `inputSchema` (a pydantic field). -/
structure SchemaProp where
  name : String
  type : String
  items : Option Items
  default : Option PyDefault

/-- The `inputSchema` part of the JSON schema `proto_to_jsonschema` returns:
`properties` in field order and the `required` name list (pydantic lists the
fields declared without default). -/
structure InputSchema where
  properties : List SchemaProp
  required : List String

/-- The full schema returned by `proto_to_jsonschema` (prototypes.py lines
64-71): name, description, `inputSchema`, and whether an `outputSchema` entry
is present (its contents are not examined by any claim). -/
structure HandlerSchema where
  name : String
  description : String
  inputSchema : InputSchema
  hasOutputSchema : Bool

/-- Python's `str.endswith`, on code-point lists (used instead of
`String.endsWith` so that concrete instances reduce by `decide`). -/
def strEndsWith (s t : String) : Bool :=
  decide (s.toList.reverse.take t.toList.length = t.toList.reverse)

/-- The parameter-keeping test of `proto_to_jsonschema` (prototypes.py line
42): drop `self` and names ending in `_service`. -/
def keepParam (p : Param) : Bool :=
  p.name != "self" && !(strEndsWith p.name "_service")

/-- `proto_to_jsonschema` (prototypes.py lines 33-71), on the input side:
the kept parameters become the pydantic model's fields, hence the schema's
`properties` (a parameter with no default gets `Field()`, i.e. is required);
`required` is the list of kept parameter names without default.  The
derivation of `outputSchema` from the return annotation is abstracted to the
presence bit `hasOut`. -/
def proto_to_jsonschema (params : List Param) (name description : String)
    (hasOut : Bool) : HandlerSchema :=
  let kept := params.filter keepParam
  { name := name
    description := description
    inputSchema :=
      { properties := kept.map fun p =>
          { name := p.name, type := p.jsonType, items := p.items, default := p.default }
        required := ((kept.filter fun p => p.default.isNone).map Param.name) }
    hasOutputSchema := hasOut }

/-- `JSON_TO_PY_TYPES` (prototypes.py lines 17-24). -/
def JSON_TO_PY_TYPES : List (String × String) :=
  [("string", "str"), ("number", "float"), ("integer", "int"),
   ("boolean", "bool"), ("array", "list"), ("object", "dict")]

/-- A Python type expression node built by `json_to_py_type`: a `Name` node
for a known type, a `Constant` node for an unknown JSON type string, or a
`Subscript` for arrays with `items` (the subscript slice is `None` when the
items have no `type`). -/
inductive PyTy where
  | pyName (s : String) : PyTy
  | pyConst (s : String) : PyTy
  | sub (base : PyTy) (item : Option PyTy) : PyTy
deriving Repr

/-- `json_to_py_type` (prototypes.py lines 74-82). -/
def json_to_py_type : Option String → Option Items → Option PyTy
  | none, _ => none
  | some t, items =>
    let base := match JSON_TO_PY_TYPES.lookup t with
      | some py => PyTy.pyName py
      | none => PyTy.pyConst t
    if t = "array" then
      match items with
      | some (Items.mk it sub) => some (PyTy.sub base (json_to_py_type it sub))
      | none => some base
    else
      some base

/-- One keyword-only argument of the synthesized prototype function:
`kwDefault = none` models the `None` entry in `kw_defaults` (a required
keyword argument); `kwDefault = some v` models `Constant(v)` where `v` is the
schema default if it is of a simple type and `None` (here `Json.null`)
otherwise. -/
structure ProtoArg where
  name : String
  pyType : Option PyTy
  kwDefault : Option Json

/-- The synthesized prototype function (`jsonschema_to_proto` builds it as an
AST and `exec`s it): its name, docstring and keyword-only argument list. -/
structure Proto where
  name : String
  doc : String
  args : List ProtoArg

/-- The keyword-only argument `jsonschema_to_proto` builds for one schema
property (prototypes.py lines 96-109): its annotation via `json_to_py_type`,
and `kw_defaults` entry `None` when the name is required, else a constant
carrying the default when the default has a simple type and `None` otherwise. -/
def protoArgOf (required : List String) (p : SchemaProp) : ProtoArg :=
  { name := p.name
    pyType := json_to_py_type (some p.type) p.items
    kwDefault :=
      if p.name ∈ required then none
      else some (match p.default with
        | some (.simple v) => v
        | _ => Json.null) }

/-- `jsonschema_to_proto` (prototypes.py lines 85-120): one keyword-only
argument per `inputSchema` property, required exactly when the property name
is in the schema's `required` list. -/
def jsonschema_to_proto (schema : HandlerSchema) : Proto :=
  { name := schema.name
    doc := schema.description
    args := schema.inputSchema.properties.map (protoArgOf schema.inputSchema.required) }

/-- The keyword-argument names a prototype accepts. -/
def Proto.acceptedNames (pr : Proto) : List String :=
  pr.args.map ProtoArg.name

/-- The required keyword arguments of a prototype (those whose `kw_defaults`
entry is `None`). -/
def Proto.requiredNames (pr : Proto) : List String :=
  (pr.args.filter fun a => a.kwDefault.isNone).map ProtoArg.name

/-! ## Tools (`tools.py`) -/

/-- One registered tool (tools.py line 67): the validating prototype, the
`'outputSchema' in schema` flag and the source handler.  The prototype call
and the handler call are modelled as functions whose raised exceptions carry
their string message through `Except.error`; the handler's Python return
value has abstract type `ρ`. -/
structure ToolDef (ρ : Type) where
  proto : List (String × Json) → Except String Unit
  withStructuredContent : Bool
  handler : List (String × Json) → Except String ρ

/-- `Tools.create_tool_error` (tools.py lines 89-91). -/
def create_tool_error (msg : String) : Json :=
  Json.obj [("isError", .bool true),
            ("content", .arr [Json.obj [("type", .str "text"), ("text", .str msg)]])]

/-- The effects observable during a capability call: whether the argument
prototype was evaluated and whether the registered handler was invoked. -/
structure CallEvents where
  validated : Bool
  invoked : Bool
deriving Repr, DecidableEq

/-- `Tools.call` (tools.py lines 107-126).  `normalize` abstracts
`Tools.create_tool_response` (the normalization of a successful handler
return into `content`/`structuredContent`), which no claim inspects; it is a
universally quantified parameter, not a fixed stub.  The registry is passed
through unchanged (the method never mutates `self`), which makes claims
about the registry statable. -/
def Tools.call {ρ : Type} (normalize : Bool → ρ → Json)
    (registry : List (String × ToolDef ρ)) (requestId : Json) (name : String)
    (arguments : Option (List (String × Json))) :
    Frame × CallEvents × List (String × ToolDef ρ) :=
  let args := arguments.getD []
  match registry.lookup name with
  | none => (Frame.error requestId METHOD_NOT_FOUND "tool not found",
             ⟨false, false⟩, registry)
  | some td =>
    match td.proto args with
    | .error e => (Frame.error requestId INVALID_PARAMS e, ⟨true, false⟩, registry)
    | .ok _ =>
      match td.handler args with
      | .error e =>
        (Frame.response requestId (create_tool_error e), ⟨true, true⟩, registry)
      | .ok r =>
        (Frame.response requestId (normalize td.withStructuredContent r),
         ⟨true, true⟩, registry)

/-! ## Prompts (`prompts.py`) -/

/-- One registered prompt (prompts.py line 71): validating prototype and
source handler (per-argument descriptions and completions are not examined
by any claim). -/
structure PromptDef (ρ : Type) where
  proto : List (String × Json) → Except String Unit
  handler : List (String × Json) → Except String ρ

/-- `Prompts.get` (prompts.py lines 104-128).  `messagesOf` abstracts the
wrapping of the handler's results into the `{'messages': [...]}` response
payload (prompts.py lines 121-126), which no claim inspects. -/
def Prompts.get {ρ : Type} (messagesOf : ρ → Json)
    (registry : List (String × PromptDef ρ)) (requestId : Json) (name : String)
    (arguments : List (String × Json)) : Frame × CallEvents :=
  match registry.lookup name with
  | none => (Frame.error requestId INVALID_PARAMS "prompt not found", ⟨false, false⟩)
  | some pd =>
    match pd.proto arguments with
    | .error e => (Frame.error requestId INVALID_PARAMS e, ⟨true, false⟩)
    | .ok _ =>
      match pd.handler arguments with
      | .error e => (Frame.error requestId INTERNAL_ERROR e, ⟨true, true⟩)
      | .ok r => (Frame.response requestId (messagesOf r), ⟨true, true⟩)

/-! ## Resources (`resources.py`)

URIs, names and mime types are code-point lists (`List Char`), matching the
Python `str` values they are in the source. -/

/-- A piece of the regular expression `re.sub('\x7b(.+?)\x7d', ...)` derives
from a resource URI template: either a literal run of characters or a named
capture `(?P<name>.+?)` standing where `\x7bname\x7d` stood. -/
inductive Seg where
  | lit (c : Char) : Seg
  | hole (name : List Char) : Seg
deriving Repr, DecidableEq

/-- Scanning helper for `\x7b(.+?)\x7d`: given the characters following an
opening brace, find the shortest non-empty run of non-newline characters
followed by a closing brace (`.` does not match a newline and `+?` is
non-greedy), returning the captured name and the rest of the input. -/
def findTemplateClose (acc : List Char) : List Char → Option (List Char × List Char)
  | [] => none
  | c :: rest =>
    if c = '\x7d' && !acc.isEmpty then some (acc.reverse, rest)
    else if c = '\n' then none
    else findTemplateClose (c :: acc) rest

theorem findTemplateClose_length {acc n r : List Char} :
    ∀ {cs : List Char}, findTemplateClose acc cs = some (n, r) → r.length < cs.length := by
  intro cs
  induction cs generalizing acc with
  | nil => intro h; simp [findTemplateClose] at h
  | cons c rest ih =>
    intro h
    rw [findTemplateClose] at h
    by_cases h1 : (c = '\x7d' && !acc.isEmpty) = true
    · rw [if_pos h1] at h
      cases h
      simp
    · rw [if_neg h1] at h
      by_cases h2 : c = '\n'
      · simp [h2] at h
      · rw [if_neg h2] at h
        exact Nat.lt_trans (ih h) (Nat.lt_succ_self _)

/-- The segment decomposition performed by
`re.sub('\x7b(.+?)\x7d', r'(?P<\1>.+?)', uri)` in `Resources.register`
(resources.py line 45): each leftmost non-overlapping match of
`\x7b(.+?)\x7d` becomes a named capture, everything else stays literal. -/
def scanTemplate (cs : List Char) : List Seg :=
  match cs with
  | [] => []
  | c :: rest =>
    if c = '\x7b' then
      match h : findTemplateClose [] rest with
      | some (name, rest') => Seg.hole name :: scanTemplate rest'
      | none => Seg.lit c :: scanTemplate rest
    else
      Seg.lit c :: scanTemplate rest
termination_by cs.length
decreasing_by
  · exact Nat.lt_succ_of_lt (findTemplateClose_length h)
  · simp
  · simp

/-- Whether a decomposed URI contains a capture, i.e. whether
`re.sub` changed the string (`regexp != uri` in resources.py line 46). -/
def hasHole (segs : List Seg) : Bool :=
  segs.any fun s => match s with
    | .hole _ => true
    | .lit _ => false

/-- A byte or text stream handed to the streaming encoder; `text` models a
`str` wrapped in `io.StringIO`, `bin` models `bytes` wrapped in
`io.BytesIO` (or equivalent file objects). -/
inductive ByteStream where
  | text (s : List Char) : ByteStream
  | bin (b : List Nat) : ByteStream
deriving Repr, DecidableEq

/-- One value of the iterable a resource handler may return: a string, a
bytes object, or an already-open stream. -/
inductive ResItem where
  | strItem (s : List Char) : ResItem
  | bytesItem (b : List Nat) : ResItem
  | streamItem (st : ByteStream) : ResItem
deriving Repr, DecidableEq

/-- A resource handler's return value: a single item or an iterable
(list/tuple/generator) of items (`resources.py` line 102). -/
inductive ResData where
  | single (item : ResItem) : ResData
  | many (items : List ResItem) : ResData
deriving Repr, DecidableEq

/-- The coercion of `Resources.read` (resources.py lines 101-108): wrap a
single value in a one-element list, `str` into a `StringIO`, `bytes` into a
`BytesIO`. -/
def toByteStream : ResItem → ByteStream
  | .strItem s => .text s
  | .bytesItem b => .bin b
  | .streamItem st => st

/-- The items of a handler return value, in order. -/
def ResData.items : ResData → List ResItem
  | .single i => [i]
  | .many l => l

/-- A registered resource definition: handler (called with the URI, the
resource name and the captured keyword arguments; exceptions carry their
message through `Except.error`), resource name, mime type and description. -/
structure ResourceDef where
  handler : List Char → List Char → List (List Char × List Char) → Except String ResData
  name : List Char
  mimeType : List Char
  description : List Char

/-- The two registries of the `Resources` plug-in (resources.py lines
24-25): concrete resources keyed by URI, template resources keyed by URI
template together with the compiled pattern, both in insertion order. -/
structure ResourcesState where
  concrete : List (List Char × ResourceDef)
  templates : List (List Char × List Seg × ResourceDef)

/-- Python dict assignment `d[k] = v`: replace in place when the key exists,
append otherwise. -/
def dictInsert {α β : Type} [DecidableEq α] (d : List (α × β)) (k : α) (v : β) :
    List (α × β) :=
  match d with
  | [] => [(k, v)]
  | (k', v') :: rest =>
    if k' = k then (k, v) :: rest else (k', v') :: dictInsert rest k v

/-- `Resources.register` (resources.py lines 40-51): derive the pattern from
the URI; if the substitution changed nothing the resource is concrete, else
it is a template compiled to its segment list. -/
def Resources.register (s : ResourcesState) (uri : List Char) (rd : ResourceDef) :
    ResourcesState :=
  let segs := scanTemplate uri
  if hasHole segs then
    { s with templates := dictInsert s.templates uri (segs, rd) }
  else
    { s with concrete := dictInsert s.concrete uri rd }

/-- Matching of a segment list against a URI, as `regexp.fullmatch(uri)`
does for the compiled `(?P<name>.+?)` patterns: literals match themselves
and each hole consumes the shortest non-empty newline-free run of characters
that lets the remaining segments match (non-greedy, leftmost).  Returns the
captured `(name, value)` pairs (`match.groupdict()`), or `none` when the
pattern does not match the full URI. -/
def matchHole (n : List Char) (s : List Char)
    (restMatch : Nat → Option (List (List Char × List Char))) (k : Nat) :
    Option (List (List Char × List Char)) :=
  if k > s.length then none
  else
    let cand := s.take k
    if '\n' ∈ cand then none
    else
      match restMatch k with
      | some m => some ((n, cand) :: m)
      | none => matchHole n s restMatch (k + 1)
termination_by s.length + 1 - k

def matchSegs : List Seg → List Char → Option (List (List Char × List Char))
  | [], [] => some []
  | [], _ :: _ => none
  | Seg.lit c :: segs, s =>
    match s with
    | [] => none
    | c' :: s' => if c = c' then matchSegs segs s' else none
  | Seg.hole n :: segs, s =>
    matchHole n s (fun k => matchSegs segs (s.drop k)) 1
termination_by segs _ => segs.length

/-- The first template resource, in insertion order, whose pattern fully
matches the URI, together with its captures (the `for ... if match ...
break` loop of resources.py lines 87-91). -/
def firstTemplateMatch :
    List (List Char × List Seg × ResourceDef) → List Char →
    Option (List Char × ResourceDef × List (List Char × List Char))
  | [], _ => none
  | (turi, segs, rd) :: rest, uri =>
    match matchSegs segs uri with
    | some m => some (turi, rd, m)
    | none => firstTemplateMatch rest uri

/-- The outcome of `Resources.read`: an error frame, or the streaming
response `create_rpc_streaming_response(request_id, streams)` summarized by
the stream triples it is built from. -/
inductive ReadOutcome where
  | errorFrame (code : Int) (message : String)
  | streaming (streams : List (List Char × List Char × ByteStream))
deriving Repr, DecidableEq

/-- A record of the handler invocation `services_service(f, uri, name,
**params)` performed by `read`, if any: the `uri` and `name` positional
arguments and the captured keyword arguments. -/
structure ReadInvocation where
  uri : List Char
  name : List Char
  params : List (List Char × List Char)
deriving Repr, DecidableEq

/-- The shared tail of `Resources.read` (resources.py lines 95-110): invoke
the handler with the URI, the resource name and the captured keyword
arguments; a raising handler gives `INTERNAL_ERROR`, a successful one has
its data coerced to `(uri, mime_type, stream)` triples handed to the
streaming encoder. -/
def Resources.finishRead (uri : List Char) (rd : ResourceDef)
    (params : List (List Char × List Char)) :
    ReadOutcome × Option ReadInvocation :=
  let inv : ReadInvocation := ⟨uri, rd.name, params⟩
  match rd.handler uri rd.name params with
  | .error e => (ReadOutcome.errorFrame INTERNAL_ERROR e, some inv)
  | .ok d =>
    (ReadOutcome.streaming (d.items.map fun i => (uri, rd.mimeType, toByteStream i)),
     some inv)

/-- `Resources.read` (resources.py lines 82-110): concrete lookup first;
else the first fully-matching template (whose template URI replaces the
requested one and whose captures become keyword arguments); else
`INVALID_PARAMS` with no handler invocation. -/
def Resources.read (s : ResourcesState) (uri : List Char) :
    ReadOutcome × Option ReadInvocation :=
  match s.concrete.lookup uri with
  | some rd => Resources.finishRead uri rd []
  | none =>
    match firstTemplateMatch s.templates uri with
    | some (turi, rd, m) => Resources.finishRead turi rd m
    | none => (ReadOutcome.errorFrame INVALID_PARAMS "resource not found", none)

/-- Full-match semantics of a compiled template pattern together with its
captures, written directly from the meaning of `(?P<name>.+?)`: literals
match themselves and every hole matches some non-empty run of non-newline
characters, captured under its name.  This is the specification side
against which the backtracking matcher `matchSegs` is proved sound and
complete.  (As in `matchSegs`, literal characters match themselves; this is
the meaning of the compiled pattern as long as the template's literal text
contains no regex metacharacter, since `Resources.register` does not
escape it.) -/
inductive SegsMatchWith :
    List Seg → List Char → List (List Char × List Char) → Prop
  | nil : SegsMatchWith [] [] []
  | lit {c : Char} {segs : List Seg} {s : List Char}
      {m : List (List Char × List Char)} :
      SegsMatchWith segs s m → SegsMatchWith (Seg.lit c :: segs) (c :: s) m
  | hole {n part : List Char} {segs : List Seg} {s : List Char}
      {m : List (List Char × List Char)} :
      part ≠ [] → '\n' ∉ part → SegsMatchWith segs s m →
      SegsMatchWith (Seg.hole n :: segs) (part ++ s) ((n, part) :: m)

/-- A compiled template pattern fully matches a URI when some capture
assignment exists. -/
def SegsMatch (segs : List Seg) (s : List Char) : Prop :=
  ∃ m, SegsMatchWith segs s m

/-! ## Client session state (`client.py`)

Wall-clock timestamps (`time.time()`) are modelled by `Int`: the code only
compares them and adds integer constants to them.  Response callbacks are
identified by abstract tags (`Nat`); `client.py`'s own `on_roots_received`
callback gets the reserved tag `rootsReceivedTag`. -/

/-- `Client.CLEANUP_PERIODICITY` (client.py line 111). -/
def CLEANUP_PERIODICITY : Int := 10

/-- The tag identifying the `Client.on_roots_received` bound method, which
`list_roots` registers as the response callback of its `roots/list`
request. -/
def rootsReceivedTag : Nat := 0

/-- The mutable state of a `Client` (client.py lines 116-140) that the
claims are about: the server-side request-id counter, the insertion-ordered
pending-response table `response_callbacks` mapping a request id to its
`(timestamp, callback)` pair, the two cleanup clocks, and the
client-declared capability names. -/
structure ClientState where
  requestId : Nat
  responseCallbacks : List (Nat × Int × Nat)
  lastMessageSent : Int
  lastCleanup : Int
  capabilities : List String
deriving Repr, DecidableEq

/-- `Client.create_rpc_request` (client.py lines 197-204): allocate the next
request id, register `(now, callback)` in the pending table, and return the
serialized request frame. -/
def createRpcRequest (c : ClientState) (method : String) (cb : Nat) (now : Int)
    (params : Json) : ClientState × Frame :=
  let rid := c.requestId + 1
  ({ c with
      requestId := rid
      responseCallbacks := c.responseCallbacks ++ [(rid, now, cb)] },
   Frame.request (Json.num rid) method params)

/-- `Client.handle_response` (client.py lines 270-273): pop the pending
callback for the response id — removing it from the table — and invoke it
when one was registered; a response id with no registered callback invokes
nothing and changes nothing.  The returned list records the performed
invocations as `(request id, callback tag)` pairs. -/
def handleResponse (c : ClientState) (id : Nat) :
    ClientState × List (Nat × Nat) :=
  match c.responseCallbacks.lookup id with
  | some (_, cb) =>
    ({ c with responseCallbacks :=
        c.responseCallbacks.filter fun e => e.1 ≠ id },
     [(id, cb)])
  | none => (c, [])

/-- `Client.cleanup` (client.py lines 142-155): send a ping when the
connection has been idle longer than `ping_timeout`, and every
`CLEANUP_PERIODICITY` seconds drop the prefix of pending callbacks whose
age exceeds `CLEANUP_PERIODICITY`, updating `last_cleanup`. -/
def cleanup (c : ClientState) (now pingTimeout : Int) :
    ClientState × Option Frame :=
  let ping :=
    if now > c.lastMessageSent + pingTimeout then
      some (Frame.notification "ping" Json.null)
    else none
  let c' :=
    if now > c.lastCleanup + CLEANUP_PERIODICITY then
      { c with
          lastCleanup := now
          responseCallbacks :=
            c.responseCallbacks.dropWhile fun e => now > e.2.1 + CLEANUP_PERIODICITY }
    else c
  (c', ping)

/-- One event in the lifetime of a client session, as far as the pending
response table is concerned: a server-initiated request registering a
callback (`create_rpc_request`), an incoming `result` frame
(`handle_response`), or a cleanup tick. -/
inductive ClientOp where
  | register (method : String) (cb : Nat) (now : Int) (params : Json) : ClientOp
  | response (id : Nat) : ClientOp
  | cleanupTick (now pingTimeout : Int) : ClientOp

/-- One step of the session, returning the new state and the callback
invocations it performed. -/
def clientStep (c : ClientState) : ClientOp → ClientState × List (Nat × Nat)
  | .register method cb now params => ((createRpcRequest c method cb now params).1, [])
  | .response id => handleResponse c id
  | .cleanupTick now pt => ((cleanup c now pt).1, [])

/-- Run a sequence of session events, accumulating all callback
invocations in order. -/
def clientRun (c : ClientState) : List ClientOp → ClientState × List (Nat × Nat)
  | [] => (c, [])
  | op :: ops =>
    ((clientRun (clientStep c op).1 ops).1,
     (clientStep c op).2 ++ (clientRun (clientStep c op).1 ops).2)

/-- A fresh client session (client.py lines 116-128): no pending callbacks
and `request_id = 0`. -/
def initialClient (t0 : Int) (caps : List String) : ClientState :=
  { requestId := 0
    responseCallbacks := []
    lastMessageSent := t0
    lastCleanup := t0
    capabilities := caps }

/-- The invariant tying a client state to the multiset `used` of request
ids whose callbacks have already been invoked: pending keys are distinct
and bounded by the id counter, invoked ids are distinct, bounded, and no
longer pending.  It is preserved by every session event and makes each
callback's invocation unrepeatable. -/
def CallbacksInv (c : ClientState) (used : List Nat) : Prop :=
  (c.responseCallbacks.map Prod.fst).Nodup
  ∧ (∀ k ∈ c.responseCallbacks.map Prod.fst, k ≤ c.requestId)
  ∧ used.Nodup
  ∧ (∀ u ∈ used, u ≤ c.requestId)
  ∧ (∀ u ∈ used, u ∉ c.responseCallbacks.map Prod.fst)

/-- Dispatch of the client-side notification handlers registered in
`rpc_exports` (client.py lines 130-140), as exercised by
`handle_json_rpc` on a frame with a `method` and no `id`
(client.py lines 250-260): the resolved handler's return value is what
`handle_json_rpc` returns, i.e. the outbound frame (or `none`).
`on_initialized` (line 302) returns `list_roots()` — a new `roots/list`
request frame — iff the client declared the `roots` capability;
`on_cancel` (line 306) only logs; `on_roots_changed` (line 310) calls
`list_roots()` but discards the returned frame, so it registers a callback
without emitting anything.  An unresolved name in the `notifications/`
namespace resolves to a non-callable `\x7b\x7d`, making `invoke` return a
`METHOD_NOT_FOUND` error frame with the null id of the notification (the
model covers the `notifications/` namespace; the request handlers `ping`,
`logging/setLevel` and `completion/complete` of `rpc_exports` are not
exercised by any claim). -/
def handleNotification (c : ClientState) (method : String) (now : Int) :
    ClientState × Option Frame :=
  if method = "notifications/initialized" then
    if c.capabilities.contains "roots" then
      let (c', f) := createRpcRequest c "roots/list" rootsReceivedTag now (Json.obj [])
      (c', some f)
    else (c, none)
  else if method = "notifications/cancelled" then
    (c, none)
  else if method = "notifications/roots/list_changed" then
    let (c', _) := createRpcRequest c "roots/list" rootsReceivedTag now (Json.obj [])
    (c', none)
  else
    (c, some (Frame.error Json.null METHOD_NOT_FOUND
        ("rpc method `" ++ method ++ "` not found")))

/-! ## Application-level handlers (`application.py`) -/

/-- One loaded capability plug-in, as `MCPApp.initialize` sees it: its entry
name, its Python truthiness (`Tools` and `Prompts` are dict subclasses and
are falsy while empty; `Resources` is always truthy) and its `infos`
advertisement object. -/
structure AppCapability where
  name : String
  truthy : Bool
  infos : Json

/-- The `MCPApp` state the `initialize` handler touches (application.py
lines 58-72): server name, version, the recorded client capabilities and
the loaded capability plug-ins. -/
structure AppState where
  serverName : String
  version : String
  clientCapabilities : Json
  capabilities : List AppCapability

/-- Python dict union `d1 | d2`: keys of `d1` keep their position, common
keys take `d2`'s value, new keys of `d2` are appended in `d2`'s order. -/
def dictUnion (d1 d2 : List (String × Json)) : List (String × Json) :=
  d2.foldl (fun acc kv => dictInsert acc kv.1 kv.2) d1

/-- `MCPApp.initialize` (application.py lines 228-252): record the client
`capabilities` parameter, and send a response whose result carries the
protocol version, the server info, and the capability advertisement
`\x7b'completion': \x7b\x7d, 'roots': \x7b\x7d\x7d` dict-merged with one
entry per loaded truthy capability.  The client's `protocolVersion`
parameter arrives in the ignored `**params` and is recorded nowhere. -/
def MCPApp.initialize (s : AppState) (requestId : Json) (caps : Json) :
    AppState × Frame :=
  let s' := { s with clientCapabilities := caps }
  let capAd := dictUnion [("completion", Json.obj []), ("roots", Json.obj [])]
    (s.capabilities.filterMap fun c =>
      if c.truthy then some (c.name, c.infos) else none)
  (s',
   Frame.response requestId (Json.obj
     [("protocolVersion", Json.str "2024-11-05"),
      ("serverInfo", Json.obj
        [("name", Json.str s.serverName), ("version", Json.str s.version)]),
      ("capabilities", Json.obj capAd)]))

/-- The `initialize` result claim C2 asserts, written from the spec's words
(section 4.5): capability base
`\x7broots:\x7b\x7d, completions:\x7b\x7d, logging:\x7b\x7d,
sampling:\x7b\x7d\x7d` merged with one entry per registered capability,
with no truthiness filter.  This is the claim side of the comparison, to be
diffed against what `MCPApp.initialize` actually sends. -/
def claimedInitResult (s : AppState) : Json :=
  Json.obj
    [("protocolVersion", Json.str "2024-11-05"),
     ("serverInfo", Json.obj
       [("name", Json.str s.serverName), ("version", Json.str s.version)]),
     ("capabilities", Json.obj (dictUnion
       [("roots", Json.obj []), ("completions", Json.obj []),
        ("logging", Json.obj []), ("sampling", Json.obj [])]
       (s.capabilities.map fun c => (c.name, c.infos))))]

/-- The `initialize` result `MCPApp.initialize` actually sends, written
from the amended claim's words: capability base
`\x7bcompletion: \x7b\x7d, roots: \x7b\x7d\x7d` dict-merged with one
entry per loaded capability that is truthy (non-empty for the dict-backed
`Tools` and `Prompts`, always for `Resources`). -/
def amendedInitResult (s : AppState) : Json :=
  Json.obj
    [("protocolVersion", Json.str "2024-11-05"),
     ("serverInfo", Json.obj
       [("name", Json.str s.serverName), ("version", Json.str s.version)]),
     ("capabilities", Json.obj (dictUnion
       [("completion", Json.obj []), ("roots", Json.obj [])]
       (s.capabilities.filterMap fun c =>
         if c.truthy then some (c.name, c.infos) else none)))]

/-! ## Streaming encoder (`client.py create_rpc_streaming_response`,
`application.py generate_iterator`)

The Python generator yields UTF-8 byte strings; every yielded piece is the
UTF-8 encoding of a code-point sequence (ASCII literals, `uri.encode
('utf-8')`, base64 output, or `json.dumps` output), and UTF-8 encoding is a
concatenation homomorphism, so the generator is modelled at code-point
level: it produces `List Char` fragments whose UTF-8 encoding is the byte
output. -/

/-- `CHUNK_SIZE` (application.py lines 22-26): the default streaming chunk
size, `10 * 1024 + 2`. -/
def CHUNK_SIZE : Nat := 10 * 1024 + 2

/-- The base64 alphabet. -/
def b64chars : List Char :=
  "ABCDEFGHIJKLMNOPQRSTUVWXYZabcdefghijklmnopqrstuvwxyz0123456789+/".toList

/-- The alphabet character of a 6-bit index.  Indices computed by
`b64encode` from byte values below 256 are below 64; the modulus merely
totalizes the function. -/
def b64char (i : Nat) : Char :=
  b64chars.getD (i % 64) 'A'

/-- `base64.b64encode`, on byte lists: 4 alphabet characters per 3-byte
group, with `=` padding only for a 1- or 2-byte final group. -/
def b64encode : List Nat → List Char
  | b1 :: b2 :: b3 :: rest =>
    b64char (b1 / 4) :: b64char ((b1 % 4) * 16 + b2 / 16) ::
    b64char ((b2 % 16) * 4 + b3 / 64) :: b64char (b3 % 64) :: b64encode rest
  | [b1, b2] =>
    [b64char (b1 / 4), b64char ((b1 % 4) * 16 + b2 / 16), b64char ((b2 % 16) * 4), '=']
  | [b1] => [b64char (b1 / 4), b64char ((b1 % 4) * 16), '=', '=']
  | [] => []

/-- The chunk sequence produced by `iter(partial(stream.read, chunk_size),
sentinel)`: successive `read(chunk_size)` results up to the first empty
one.  With `chunk_size = 0` every read returns the empty value at once, so
there are no chunks. -/
def readChunks {α : Type} (cs : Nat) (b : List α) : List (List α) :=
  if h : cs = 0 ∨ b.isEmpty then []
  else b.take cs :: readChunks cs (b.drop cs)
termination_by b.length
decreasing_by
  rcases not_or.mp h with ⟨h1, h2⟩
  have hb : b ≠ [] := by simpa [List.isEmpty_iff] using h2
  have := List.length_pos.mpr hb
  simp only [List.length_drop]
  omega

/-- The lowercase hexadecimal digit of `n % 16`. -/
def hexDigit (n : Nat) : Char :=
  "0123456789abcdef".toList.getD (n % 16) '0'

/-- A `\uXXXX` escape for a 16-bit code unit. -/
def uEscape (n : Nat) : List Char :=
  ['\\', 'u', hexDigit (n / 4096), hexDigit (n / 256), hexDigit (n / 16), hexDigit n]

/-- The character encoding of `json.dumps` with its default
`ensure_ascii=True` (CPython `json.encoder.py_encode_basestring_ascii`):
printable ASCII other than the quote and the backslash passes through, the
two-character escapes cover the quote, the backslash and the usual control
characters, and every other character becomes a `\uXXXX` escape (a pair of
surrogate escapes above U+FFFF). -/
def escapeChar (c : Char) : List Char :=
  if c = '"' then ['\\', '"']
  else if c = '\\' then ['\\', '\\']
  else if c = '\n' then ['\\', 'n']
  else if c = '\r' then ['\\', 'r']
  else if c = '\t' then ['\\', 't']
  else if c.toNat = 8 then ['\\', 'b']
  else if c.toNat = 12 then ['\\', 'f']
  else if 0x20 ≤ c.toNat ∧ c.toNat ≤ 0x7e then [c]
  else if c.toNat < 0x10000 then uEscape c.toNat
  else uEscape (0xd800 + (c.toNat - 0x10000) / 1024)
       ++ uEscape (0xdc00 + (c.toNat - 0x10000) % 1024)

/-- `json.dumps(chunk)[1:-1]`: the JSON string encoding of a text chunk
with the surrounding double quotes stripped (the `separators` argument does
not affect the encoding of a single string). -/
def jsonStringBody (s : List Char) : List Char :=
  (s.map escapeChar).flatten

/-- The decimal digit character of `n % 10`. -/
def digitChar (n : Nat) : Char :=
  "0123456789".toList.getD (n % 10) '0'

/-- The decimal digits of a natural number, most significant first (the
fuel, `n + 1` at the entry point, dominates the number of digits). -/
def natDigitsAux : Nat → Nat → List Char
  | 0, _ => []
  | fuel + 1, n =>
    if n < 10 then [digitChar n]
    else natDigitsAux fuel (n / 10) ++ [digitChar (n % 10)]

/-- The decimal digits of a natural number (`str(n)` in Python). -/
def natChars (n : Nat) : List Char :=
  natDigitsAux (n + 1) n

/-- A JSON-RPC response id as it occurs on the wire: absent (`None`), an
integer, or a string. -/
inductive RpcId where
  | null : RpcId
  | num (n : Int) : RpcId
  | str (s : List Char) : RpcId

/-- `json.dumps(response_id)` for a scalar response id. -/
def rpcIdChars : RpcId → List Char
  | .null => "null".toList
  | .num n => if n < 0 then '-' :: natChars n.natAbs else natChars n.natAbs
  | .str s => '"' :: (jsonStringBody s ++ ['"'])

/-- The binary test of the streaming encoder (client.py line 231):
`not mime_type.startswith('text/')`. -/
def isBinaryMime (mime : List Char) : Bool :=
  !(decide (mime.take 5 = "text/".toList))

/-- The body fragments of one stream (client.py lines 240-243): base64 of
each chunk of a binary stream, quote-stripped JSON string encoding of each
chunk of a text stream.  A stream object whose kind contradicts the mime
type makes the Python generator raise (`b64encode` of `str`, `json.dumps`
of `bytes`, or a sentinel that never matches); this is modelled by
`none`. -/
def streamBodyFragments (cs : Nat) (mime : List Char) :
    ByteStream → Option (List (List Char))
  | .bin b =>
    if isBinaryMime mime then some ((readChunks cs b).map b64encode) else none
  | .text t =>
    if isBinaryMime mime then none else some ((readChunks cs t).map jsonStringBody)

/-- The per-entry header fragment
`b'%s\x7b"uri": "%s", "mimeType": "%s", "%s": "'` (client.py lines
233-238). -/
def entryHeader (sep : List Char) (uri mime : List Char) (binary : Bool) :
    List Char :=
  sep ++ "\x7b\"uri\": \"".toList ++ uri ++ "\", \"mimeType\": \"".toList ++ mime
      ++ "\", \"".toList ++ (if binary then "blob".toList else "text".toList)
      ++ "\": \"".toList

/-- The fragments of the `contents` entries, in order: each entry yields its
header (with the separator `', '` before every entry but the first), its
body fragments, and the closing `'"\x7d'`. -/
def entriesFragments (cs : Nat) (sep : List Char) :
    List (List Char × List Char × ByteStream) → Option (List (List Char))
  | [] => some []
  | (uri, mime, st) :: rest =>
    match streamBodyFragments cs mime st with
    | none => none
    | some body =>
      match entriesFragments cs ", ".toList rest with
      | none => none
      | some fs =>
        some (entryHeader sep uri mime (isBinaryMime mime) :: (body ++ ("\"\x7d".toList :: fs)))

/-- The opening fragment
`b'\x7b"jsonrpc": "2.0", "id": %s, "result": \x7b"contents": ['`
(client.py line 227). -/
def openingFragment (id : RpcId) : List Char :=
  "\x7b\"jsonrpc\": \"2.0\", \"id\": ".toList ++ rpcIdChars id
  ++ ", \"result\": \x7b\"contents\": [".toList

/-- `Client.create_rpc_streaming_response` (client.py lines 226-248) and the
identical `MCPApp.generate_iterator` (application.py lines 159-201): the
code-point fragments the generator yields — the opening fragment, the
entries' fragments, and the closing `']\x7d\x7d'`.  `none` models the
generator raising on a stream/mime-type mismatch. -/
def create_rpc_streaming_response (cs : Nat) (id : RpcId)
    (streams : List (List Char × List Char × ByteStream)) :
    Option (List (List Char)) :=
  match entriesFragments cs [] streams with
  | none => none
  | some fs => some (openingFragment id :: (fs ++ ["]\x7d\x7d".toList]))

/-! ## A JSON recognizer

`jsonValid` decides whether a code-point sequence is a syntactically valid
JSON document (RFC 8259 grammar; `\uXXXX` escapes are accepted on four hex
digits, as the grammar is purely syntactic).  The UTF-8 encoding of a
code-point sequence is a valid UTF-8 byte document exactly when the
sequence itself parses, so validity is checked at code-point level. -/

/-- JSON insignificant whitespace. -/
def isJsonWs (c : Char) : Bool :=
  c = ' ' || c = '\t' || c = '\n' || c = '\r'

/-- Skip insignificant whitespace. -/
def skipWs (s : List Char) : List Char :=
  s.dropWhile isJsonWs

/-- Hexadecimal digits (both cases), as allowed after `\u`. -/
def isHexDigit (c : Char) : Bool :=
  ('0' ≤ c && c ≤ '9') || ('a' ≤ c && c ≤ 'f') || ('A' ≤ c && c ≤ 'F')

/-- Decimal digits. -/
def isDigit (c : Char) : Bool :=
  '0' ≤ c && c ≤ '9'

/-- The two-character escapes of the JSON string grammar. -/
def escapables : List Char :=
  ['"', '\\', '/', 'b', 'f', 'n', 'r', 't']

/-- Recognize the remainder of a JSON string after its opening quote,
returning the input following the closing quote. -/
def parseStringBody : List Char → Option (List Char)
  | [] => none
  | c :: rest =>
    if c = '"' then some rest
    else if c = '\\' then
      match rest with
      | [] => none
      | e :: rest2 =>
        if e = 'u' then
          match rest2 with
          | h1 :: h2 :: h3 :: h4 :: rest3 =>
            if isHexDigit h1 && isHexDigit h2 && isHexDigit h3 && isHexDigit h4 then
              parseStringBody rest3
            else none
          | _ => none
        else if e ∈ escapables then parseStringBody rest2
        else none
    else if 0x20 ≤ c.toNat then parseStringBody rest
    else none

/-- Recognize an exact literal continuation (`rue`, `alse`, `ull`). -/
def dropLit (lit s : List Char) : Option (List Char) :=
  if s.take lit.length = lit then some (s.drop lit.length) else none

/-- Recognize the optional fraction part of a JSON number. -/
def parseFrac : List Char → Option (List Char)
  | '.' :: rest =>
    match rest with
    | c :: rest' => if isDigit c then some (rest'.dropWhile isDigit) else none
    | [] => none
  | s => some s

/-- Recognize the optional exponent part of a JSON number. -/
def parseExp : List Char → Option (List Char)
  | [] => some []
  | c :: rest =>
    if c = 'e' || c = 'E' then
      let rest1 := match rest with
        | s :: r => if s = '+' || s = '-' then r else s :: r
        | [] => []
      match rest1 with
      | d :: r => if isDigit d then some (r.dropWhile isDigit) else none
      | [] => none
    else some (c :: rest)

/-- Recognize a JSON number (`-? int frac? exp?` with no leading zeros). -/
def parseNumber (s : List Char) : Option (List Char) :=
  let s1 := if s.head? = some '-' then s.tail else s
  match s1 with
  | [] => none
  | c :: r =>
    if c = '0' then (parseFrac r).bind parseExp
    else if '1' ≤ c ∧ c ≤ '9' then (parseFrac (r.dropWhile isDigit)).bind parseExp
    else none

mutual

/-- Recognize a JSON value (leading whitespace allowed), returning the rest
of the input.  The fuel argument decreases at every nested call; the top
entry point supplies `length + 1`, which is always sufficient since every
recursive call follows the consumption of at least one character. -/
def parseValue : Nat → List Char → Option (List Char)
  | 0, _ => none
  | fuel + 1, s =>
    match skipWs s with
    | [] => none
    | c :: rest =>
      if c = '"' then parseStringBody rest
      else if c = '\x7b' then parseMembers fuel rest
      else if c = '[' then parseElements fuel rest
      else if c = 't' then dropLit "rue".toList rest
      else if c = 'f' then dropLit "alse".toList rest
      else if c = 'n' then dropLit "ull".toList rest
      else parseNumber (c :: rest)

/-- Recognize what follows the opening brace of a JSON object. -/
def parseMembers : Nat → List Char → Option (List Char)
  | 0, _ => none
  | fuel + 1, s =>
    match skipWs s with
    | '\x7d' :: rest => some rest
    | s' => parseMemberList fuel s'

/-- Recognize a non-empty `key: value` member list and the closing brace. -/
def parseMemberList : Nat → List Char → Option (List Char)
  | 0, _ => none
  | fuel + 1, s =>
    match skipWs s with
    | '"' :: rest =>
      match parseStringBody rest with
      | none => none
      | some afterKey =>
        match skipWs afterKey with
        | ':' :: afterColon =>
          match parseValue fuel afterColon with
          | none => none
          | some afterVal =>
            match skipWs afterVal with
            | ',' :: rest2 => parseMemberList fuel rest2
            | '\x7d' :: rest2 => some rest2
            | _ => none
        | _ => none
    | _ => none

/-- Recognize what follows the opening bracket of a JSON array. -/
def parseElements : Nat → List Char → Option (List Char)
  | 0, _ => none
  | fuel + 1, s =>
    match skipWs s with
    | ']' :: rest => some rest
    | s' => parseElementList fuel s'

/-- Recognize a non-empty element list and the closing bracket. -/
def parseElementList : Nat → List Char → Option (List Char)
  | 0, _ => none
  | fuel + 1, s =>
    match parseValue fuel s with
    | none => none
    | some afterVal =>
      match skipWs afterVal with
      | ',' :: rest => parseElementList fuel rest
      | ']' :: rest => some rest
      | _ => none

end

/-- Whether a code-point sequence is a syntactically valid JSON document:
one value surrounded only by insignificant whitespace. -/
def jsonValid (s : List Char) : Bool :=
  match parseValue (s.length + 1) s with
  | some rest => (skipWs rest).isEmpty
  | none => false

/-- A character that may appear bare inside a JSON string: at or above
U+0020 and neither the quote nor the backslash. -/
def PlainChar (c : Char) : Prop :=
  0x20 ≤ c.toNat ∧ c ≠ '"' ∧ c ≠ '\\'

instance (c : Char) : Decidable (PlainChar c) := by
  unfold PlainChar; infer_instance

/-- Well-formed JSON string bodies: sequences of bare characters and
complete escapes.  `parseStringBody` runs through such a body to the
closing quote. -/
inductive StrBodyOk : List Char → Prop
  | nil : StrBodyOk []
  | plain {c : Char} {s : List Char} :
      PlainChar c → StrBodyOk s → StrBodyOk (c :: s)
  | esc2 {c : Char} {s : List Char} :
      c ∈ escapables → StrBodyOk s → StrBodyOk ('\\' :: c :: s)
  | escU {h1 h2 h3 h4 : Char} {s : List Char} :
      isHexDigit h1 → isHexDigit h2 → isHexDigit h3 → isHexDigit h4 →
      StrBodyOk s → StrBodyOk ('\\' :: 'u' :: h1 :: h2 :: h3 :: h4 :: s)

/-- Whether a stream object agrees with the encoder's reading mode for its
mime type: a `BytesIO`-like stream under a binary mime type, a
`StringIO`-like stream under a `text/` one (otherwise the Python generator
raises). -/
def streamKindOk (mime : List Char) : ByteStream → Bool
  | .bin _ => isBinaryMime mime
  | .text _ => !isBinaryMime mime

/-- A well-formed stream entry, under which the claim's validity statement
is provable: the URI and the mime type consist of characters that are legal
bare inside a JSON string, and the stream object agrees with the mime
type's reading mode. -/
def EntryOk (e : List Char × List Char × ByteStream) : Prop :=
  (∀ c ∈ e.1, PlainChar c) ∧ (∀ c ∈ e.2.1, PlainChar c)
    ∧ streamKindOk e.2.1 e.2.2 = true

instance (e : List Char × List Char × ByteStream) : Decidable (EntryOk e) := by
  unfold EntryOk; infer_instance

/-- The body of one entry, concatenated (the claim's wording): base64 of
each chunk for a binary stream, quote-stripped JSON string encoding of
each chunk for a text one. -/
def entryBodyChars (cs : Nat) (mime : List Char) : ByteStream → List Char
  | .bin b => ((readChunks cs b).map b64encode).flatten
  | .text t => ((readChunks cs t).map jsonStringBody).flatten

/-- One `contents` entry without its separator: header, body, and the
closing quote-and-brace. -/
def entryObjChars (cs : Nat) (e : List Char × List Char × ByteStream) :
    List Char :=
  entryHeader [] e.1 e.2.1 (isBinaryMime e.2.1) ++ entryBodyChars cs e.2.1 e.2.2
    ++ "\"\x7d".toList

/-- All `contents` entries, each preceded by the separator (`sep` before
the first entry, `', '` before every later one). -/
def entriesChars (cs : Nat) (sep : List Char) :
    List (List Char × List Char × ByteStream) → List Char
  | [] => []
  | e :: rest =>
    sep ++ entryObjChars cs e ++ entriesChars cs ", ".toList rest

/-- The whole document the claim describes: opening fragment, the joined
entries (no separator before the first), and the closing `']\x7d\x7d'`. -/
def streamingDocChars (cs : Nat) (id : RpcId)
    (streams : List (List Char × List Char × ByteStream)) : List Char :=
  openingFragment id ++ entriesChars cs [] streams ++ "]\x7d\x7d".toList

/-! ## Theorems -/

theorem requiredNames_of_map {R : List String} :
    ∀ (l : List Param),
      (∀ p ∈ l, (p.name ∈ R ↔ p.default.isNone = true)) →
      (((l.map fun p : Param =>
          ({ name := p.name, type := p.jsonType, items := p.items,
             default := p.default } : SchemaProp)).map (protoArgOf R)).filter
            (fun a => a.kwDefault.isNone)).map ProtoArg.name
        = (l.filter fun p => p.default.isNone).map Param.name := by
  intro l
  induction l with
  | nil => intro _; rfl
  | cons p ps ih =>
    intro h
    have hp := h p (List.mem_cons_self p ps)
    have hps := fun q hq => h q (List.mem_cons_of_mem p hq)
    by_cases hnone : p.default.isNone = true
    · have hmem : p.name ∈ R := hp.mpr hnone
      simp only [List.map_cons, List.filter_cons, protoArgOf, hmem, if_pos]
      simp only [Option.isNone_none, if_pos, List.map_cons]
      rw [if_pos hnone, List.map_cons]
      exact congrArg (p.name :: ·) (ih hps)
    · have hmem : p.name ∉ R := fun hm => hnone (hp.mp hm)
      simp only [List.map_cons, List.filter_cons, protoArgOf, hmem, if_neg,
        not_false_iff]
      simp only [Option.isNone_some]
      rw [if_neg (by simp), if_neg hnone]
      exact ih hps

/-- Claim C3: composing `proto_to_jsonschema` with `jsonschema_to_proto`
yields a prototype whose accepted keyword-argument names are exactly the
handler's parameter names minus `self` and the `_service`-suffixed ones, and
whose required arguments are exactly those kept parameters that have no
default value (the rest being optional).  Parameter names are distinct, as
Python signatures guarantee. -/
theorem C3_schema_round_trip (params : List Param) (name description : String)
    (hasOut : Bool) (hnodup : (params.map Param.name).Nodup) :
    (jsonschema_to_proto (proto_to_jsonschema params name description hasOut)).acceptedNames
      = (params.filter keepParam).map Param.name
    ∧ (jsonschema_to_proto (proto_to_jsonschema params name description hasOut)).requiredNames
      = ((params.filter keepParam).filter fun p => p.default.isNone).map Param.name := by
  have hkept : ((params.filter keepParam).map Param.name).Nodup :=
    List.Nodup.sublist (List.Sublist.map Param.name (List.filter_sublist params)) hnodup
  constructor
  · simp [jsonschema_to_proto, proto_to_jsonschema, Proto.acceptedNames, List.map_map,
      Function.comp, protoArgOf]
  · have hiff : ∀ p ∈ params.filter keepParam,
        (p.name ∈ ((params.filter keepParam).filter fun q =>
            q.default.isNone).map Param.name ↔ p.default.isNone = true) := by
      intro p hp
      constructor
      · intro hmem
        rcases List.mem_map.mp hmem with ⟨q, hq, hqname⟩
        rcases List.mem_filter.mp hq with ⟨hqkept, hqnone⟩
        have : q = p := List.inj_on_of_nodup_map hkept hqkept hp hqname
        exact this ▸ hqnone
      · intro hnone
        exact List.mem_map.mpr ⟨p, List.mem_filter.mpr ⟨hp, hnone⟩, rfl⟩
    exact requiredNames_of_map (params.filter keepParam) hiff

/-- Witness for C3 at a concrete signature: a handler
`f(self, city: str, count: int = 3, services_service)` yields accepted names
`[city, count]` with required `[city]`. -/
theorem C3_schema_round_trip_witness :
    (jsonschema_to_proto (proto_to_jsonschema
        [⟨"self", none, "string", none⟩,
         ⟨"city", none, "string", none⟩,
         ⟨"count", some (.simple (Json.num 3)), "integer", none⟩,
         ⟨"services_service", none, "object", none⟩] "f" "doc" false)).acceptedNames
      = ["city", "count"]
    ∧ (jsonschema_to_proto (proto_to_jsonschema
        [⟨"self", none, "string", none⟩,
         ⟨"city", none, "string", none⟩,
         ⟨"count", some (.simple (Json.num 3)), "integer", none⟩,
         ⟨"services_service", none, "object", none⟩] "f" "doc" false)).requiredNames
      = ["city"] := by
  have h := C3_schema_round_trip
    [⟨"self", none, "string", none⟩,
     ⟨"city", none, "string", none⟩,
     ⟨"count", some (.simple (Json.num 3)), "integer", none⟩,
     ⟨"services_service", none, "object", none⟩] "f" "doc" false (by decide)
  exact ⟨h.1.trans (by decide), h.2.trans (by decide)⟩


/-- Claim C10: a `tools/call` whose name is not a registered tool returns a
JSON-RPC error frame with code `-32601` (`METHOD_NOT_FOUND`) and message
`tool not found`; the argument prototype is not evaluated, no handler is
invoked, and the tool registry is unchanged. -/
theorem C10_tools_call_unknown_name {ρ : Type} (normalize : Bool → ρ → Json)
    (registry : List (String × ToolDef ρ)) (requestId : Json) (name : String)
    (arguments : Option (List (String × Json)))
    (h : registry.lookup name = none) :
    Tools.call normalize registry requestId name arguments
      = (Frame.error requestId METHOD_NOT_FOUND "tool not found",
         ⟨false, false⟩, registry)
    ∧ METHOD_NOT_FOUND = -32601 := by
  refine ⟨?_, rfl⟩
  simp [Tools.call, h]

/-- Witness for C10: calling the unregistered tool name `missing` on an
empty registry. -/
theorem C10_tools_call_unknown_name_witness :
    Tools.call (fun _ (_ : Unit) => Json.null) [] (Json.num 7) "missing" none
      = (Frame.error (Json.num 7) METHOD_NOT_FOUND "tool not found",
         ⟨false, false⟩, [])
    ∧ METHOD_NOT_FOUND = -32601 :=
  C10_tools_call_unknown_name (fun _ (_ : Unit) => Json.null) [] (Json.num 7)
    "missing" none rfl

/-- Claim C4: a `tools/call` whose arguments fail prototype validation
replies with a JSON-RPC error frame of code `-32602` (`INVALID_PARAMS`); a
`tools/call` whose handler raises replies with a *successful* JSON-RPC
response whose result is
`\x7bisError: true, content: [\x7btype: "text", text: <message>\x7d]\x7d`;
and a `prompts/get` or `resources/read` (through the concrete or the
template path) whose handler raises replies with a JSON-RPC error frame of
code `-32603` (`INTERNAL_ERROR`). -/
theorem C4_error_surfaces :
    (∀ (ρ : Type) (normalize : Bool → ρ → Json)
       (registry : List (String × ToolDef ρ)) (requestId : Json) (name : String)
       (arguments : Option (List (String × Json))) (td : ToolDef ρ) (e : String),
       registry.lookup name = some td →
       td.proto (arguments.getD []) = .error e →
       Tools.call normalize registry requestId name arguments
         = (Frame.error requestId INVALID_PARAMS e, ⟨true, false⟩, registry))
  ∧ (∀ (ρ : Type) (normalize : Bool → ρ → Json)
       (registry : List (String × ToolDef ρ)) (requestId : Json) (name : String)
       (arguments : Option (List (String × Json))) (td : ToolDef ρ) (e : String),
       registry.lookup name = some td →
       td.proto (arguments.getD []) = .ok () →
       td.handler (arguments.getD []) = .error e →
       Tools.call normalize registry requestId name arguments
         = (Frame.response requestId (create_tool_error e), ⟨true, true⟩, registry))
  ∧ (∀ (ρ : Type) (messagesOf : ρ → Json)
       (registry : List (String × PromptDef ρ)) (requestId : Json) (name : String)
       (arguments : List (String × Json)) (pd : PromptDef ρ) (e : String),
       registry.lookup name = some pd →
       pd.proto arguments = .ok () →
       pd.handler arguments = .error e →
       Prompts.get messagesOf registry requestId name arguments
         = (Frame.error requestId INTERNAL_ERROR e, ⟨true, true⟩))
  ∧ (∀ (s : ResourcesState) (uri : List Char) (rd : ResourceDef) (e : String),
       s.concrete.lookup uri = some rd →
       rd.handler uri rd.name [] = .error e →
       Resources.read s uri
         = (ReadOutcome.errorFrame INTERNAL_ERROR e, some ⟨uri, rd.name, []⟩))
  ∧ (∀ (s : ResourcesState) (uri turi : List Char) (rd : ResourceDef)
       (m : List (List Char × List Char)) (e : String),
       s.concrete.lookup uri = none →
       firstTemplateMatch s.templates uri = some (turi, rd, m) →
       rd.handler turi rd.name m = .error e →
       Resources.read s uri
         = (ReadOutcome.errorFrame INTERNAL_ERROR e, some ⟨turi, rd.name, m⟩))
  ∧ INVALID_PARAMS = -32602 ∧ INTERNAL_ERROR = -32603 := by
  refine ⟨?_, ?_, ?_, ?_, ?_, rfl, rfl⟩
  · intro ρ normalize registry requestId name arguments td e hlook hproto
    simp [Tools.call, hlook, hproto]
  · intro ρ normalize registry requestId name arguments td e hlook hproto hhandler
    simp [Tools.call, hlook, hproto, hhandler]
  · intro ρ messagesOf registry requestId name arguments pd e hlook hproto hhandler
    simp [Prompts.get, hlook, hproto, hhandler]
  · intro s uri rd e hlook hhandler
    simp [Resources.read, hlook, Resources.finishRead, hhandler]
  · intro s uri turi rd m e hlook hmatch hhandler
    simp [Resources.read, hlook, hmatch, Resources.finishRead, hhandler]

/-- Witness for C4 at concrete registries: a tool whose prototype rejects,
a tool whose handler raises, a prompt whose handler raises, and a concrete
resource whose handler raises. -/
theorem C4_error_surfaces_witness :
    Tools.call (fun _ (_ : Unit) => Json.null)
        [("t", ⟨fun _ => .error "bad args", false, fun _ => .ok ()⟩)]
        (Json.num 1) "t" none
      = (Frame.error (Json.num 1) INVALID_PARAMS "bad args", ⟨true, false⟩,
         [("t", ⟨fun _ => .error "bad args", false, fun _ => .ok ()⟩)])
    ∧ Tools.call (fun _ (_ : Unit) => Json.null)
        [("u", ⟨fun _ => .ok (), false, fun _ => .error "boom"⟩)]
        (Json.num 2) "u" none
      = (Frame.response (Json.num 2) (create_tool_error "boom"), ⟨true, true⟩,
         [("u", ⟨fun _ => .ok (), false, fun _ => .error "boom"⟩)])
    ∧ Prompts.get (fun (_ : Unit) => Json.null)
        [("p", ⟨fun _ => .ok (), fun _ => .error "boom"⟩)] (Json.num 3) "p" []
      = (Frame.error (Json.num 3) INTERNAL_ERROR "boom", ⟨true, true⟩)
    ∧ Resources.read
        ⟨[(['r'], ⟨fun _ _ _ => .error "boom", ['n'], ['m'], []⟩)], []⟩ ['r']
      = (ReadOutcome.errorFrame INTERNAL_ERROR "boom",
         some ⟨['r'], ['n'], []⟩) := by
  refine ⟨?_, ?_, ?_, ?_⟩
  · exact C4_error_surfaces.1 _ _ _ _ _ _ _ _ rfl rfl
  · exact C4_error_surfaces.2.1 _ _ _ _ _ _ _ _ rfl rfl rfl
  · exact C4_error_surfaces.2.2.1 _ _ _ _ _ _ _ _ rfl rfl rfl
  · exact C4_error_surfaces.2.2.2.1 _ _
      ⟨fun _ _ _ => .error "boom", ['n'], ['m'], []⟩ _ (by rfl) rfl

theorem dropWhile_eq_filter_of_sorted {α : Type} (p : α → Bool)
    (le : α → α → Prop) (hmono : ∀ a b, le a b → p b = true → p a = true) :
    ∀ l : List α, l.Pairwise le → l.dropWhile p = l.filter (fun x => !(p x)) := by
  intro l
  induction l with
  | nil => intro _; rfl
  | cons x xs ih =>
    intro hpw
    rcases List.pairwise_cons.mp hpw with ⟨hx, hxs⟩
    by_cases hp : p x = true
    · rw [List.dropWhile_cons_of_pos hp, List.filter_cons_of_neg (by simp [hp]),
        ih hxs]
    · have hall : ∀ y ∈ xs, p y = false := by
        intro y hy
        by_contra hpy
        exact hp (hmono x y (hx y hy) (Bool.not_eq_false (p y) ▸ Bool.of_not_eq_false hpy))
      rw [List.dropWhile_cons_of_neg hp,
        List.filter_cons_of_pos (by simp [hp]),
        List.filter_eq_self.mpr (by intro a ha; simp [hall a ha])]

/-- Claim C6: when the pending-response table's timestamps are non-decreasing
in insertion order and cleanup runs at a time `now` with
`now > last_cleanup + CLEANUP_PERIODICITY`, the prefix drop removes exactly
the entries of age over `CLEANUP_PERIODICITY`, no remaining entry has a
timestamp strictly older than `now - CLEANUP_PERIODICITY` (10 s), and
`last_cleanup` becomes `now`. -/
theorem C6_cleanup_drops_stale (c : ClientState) (now pt : Int)
    (hsorted : c.responseCallbacks.Pairwise (fun a b => a.2.1 ≤ b.2.1))
    (hnow : now > c.lastCleanup + CLEANUP_PERIODICITY) :
    (cleanup c now pt).1.responseCallbacks
      = c.responseCallbacks.filter
          (fun e => !(decide (now > e.2.1 + CLEANUP_PERIODICITY)))
    ∧ (∀ e ∈ (cleanup c now pt).1.responseCallbacks,
        ¬ e.2.1 < now - CLEANUP_PERIODICITY)
    ∧ (cleanup c now pt).1.lastCleanup = now := by
  have hstep : (cleanup c now pt).1
      = { c with
            lastCleanup := now
            responseCallbacks :=
              c.responseCallbacks.dropWhile
                fun e => now > e.2.1 + CLEANUP_PERIODICITY } := by
    simp [cleanup, if_pos hnow]
  have hdw : c.responseCallbacks.dropWhile
        (fun e => decide (now > e.2.1 + CLEANUP_PERIODICITY))
      = c.responseCallbacks.filter
          (fun e => !(decide (now > e.2.1 + CLEANUP_PERIODICITY))) := by
    refine dropWhile_eq_filter_of_sorted _ (fun a b => a.2.1 ≤ b.2.1) ?_
      c.responseCallbacks hsorted
    intro a b hle hb
    have := of_decide_eq_true hb
    exact decide_eq_true (by omega)
  refine ⟨?_, ?_, ?_⟩
  · rw [hstep]
    exact hdw
  · intro e he
    rw [hstep] at he
    simp only [] at he
    rw [hdw] at he
    have h1 := List.of_mem_filter he
    have h2 : ¬ (now > e.2.1 + CLEANUP_PERIODICITY) := by
      intro hgt
      rw [decide_eq_true hgt] at h1
      exact Bool.noConfusion h1
    omega
  · rw [hstep]

/-- Witness for C6: a table holding an 11-seconds-old and a 2-seconds-old
entry at `now = 11`; the first is dropped, the second stays. -/
theorem C6_cleanup_drops_stale_witness :
    (cleanup ⟨2, [(1, 0, 5), (2, 9, 6)], 0, 0, []⟩ 11 5).1.responseCallbacks
      = [(2, 9, 6)]
    ∧ (∀ e ∈ (cleanup ⟨2, [(1, 0, 5), (2, 9, 6)], 0, 0, []⟩ 11 5).1.responseCallbacks,
        ¬ e.2.1 < 11 - CLEANUP_PERIODICITY)
    ∧ (cleanup ⟨2, [(1, 0, 5), (2, 9, 6)], 0, 0, []⟩ 11 5).1.lastCleanup = 11 := by
  have h := C6_cleanup_drops_stale ⟨2, [(1, 0, 5), (2, 9, 6)], 0, 0, []⟩ 11 5
    (by simp [CLEANUP_PERIODICITY]) (by simp [CLEANUP_PERIODICITY])
  refine ⟨h.1.trans (by decide), h.2.1, h.2.2⟩

/-- Counterexample to claim C2 at a concrete input: with no registered
capability, the result the code sends has no `logging` entry in its
`capabilities` (the code's base is
`\x7b'completion': \x7b\x7d, 'roots': \x7b\x7d\x7d`), while the claim's
result carries `roots`, `completions`, `logging` and `sampling`; the sent
frame therefore differs from the claimed one.  (The handler also records no
`protocolVersion`: the model's state, like the code's, has no slot for
it.) -/
theorem C2_initialize_counterexample :
    ( MCPApp.initialize ⟨"srv", "1.0", Json.null, []⟩ (Json.num 1) (Json.obj [])).2
      ≠ Frame.response (Json.num 1)
          (claimedInitResult ⟨"srv", "1.0", Json.null, []⟩) := by
  intro h
  have h1 := congrArg (fun f => match f with
    | Frame.response _ r =>
      ((r.lookup "capabilities").bind fun cc => cc.lookup "logging").isSome
    | _ => false) h
  rw [show (fun f => match f with
    | Frame.response _ r =>
      ((r.lookup "capabilities").bind fun cc => cc.lookup "logging").isSome
    | _ => false)
      (( MCPApp.initialize ⟨"srv", "1.0", Json.null, []⟩ (Json.num 1)
        (Json.obj [])).2) = false from rfl] at h1
  exact Bool.noConfusion (h1.trans rfl)

/-- Claim C2 (amended): the `initialize` handler records the client
capabilities (the client's `protocolVersion` is ignored and recorded
nowhere) and sends a response with the request's id whose result is
`\x7bprotocolVersion: "2024-11-05", serverInfo: \x7bname, version\x7d,
capabilities: \x7bcompletion: \x7b\x7d, roots: \x7b\x7d\x7d`
dict-merged with one entry per truthy registered capability mapping its
name to its infos object`\x7d`. -/
theorem C2_initialize_records_and_responds (s : AppState) (rid caps : Json) :
    MCPApp.initialize s rid caps
      = ({ s with clientCapabilities := caps },
         Frame.response rid (amendedInitResult s)) := rfl

/-- Counterexample to claim C9 at a concrete input: for a client that
advertised the `roots` capability, handling `notifications/initialized` a
second time, immediately after a first handling of the identical frame,
again produces an outbound frame (the returned `roots/list` request),
where the claim requires none. -/
theorem C9_replay_counterexample :
    ((handleNotification
        (handleNotification (initialClient 0 ["roots"])
          "notifications/initialized" 0).1
        "notifications/initialized" 1).2).isSome = true := by decide

/-- Claim C9 (amended): replaying an identical notification produces no
outbound frame for `notifications/cancelled`, for
`notifications/roots/list_changed`, and for `notifications/initialized`
when the client did not advertise `roots`; `notifications/initialized`
with `roots` advertised returns a `roots/list` request frame on every
handling, replays included. -/
theorem C9_notification_replay (c : ClientState) (now1 now2 : Int) :
    (handleNotification (handleNotification c "notifications/cancelled" now1).1
        "notifications/cancelled" now2).2 = none
  ∧ (handleNotification
        (handleNotification c "notifications/roots/list_changed" now1).1
        "notifications/roots/list_changed" now2).2 = none
  ∧ ("roots" ∉ c.capabilities →
      (handleNotification (handleNotification c "notifications/initialized" now1).1
        "notifications/initialized" now2).2 = none)
  ∧ ("roots" ∈ c.capabilities →
      ((handleNotification (handleNotification c "notifications/initialized" now1).1
        "notifications/initialized" now2).2).isSome = true) := by
  refine ⟨?_, ?_, ?_, ?_⟩
  · simp [handleNotification]
  · simp [handleNotification, createRpcRequest]
  · intro hc
    simp [handleNotification, hc, createRpcRequest]
  · intro hc
    simp [handleNotification, hc, createRpcRequest]

/-- Witness for C9 (amended) at concrete clients with and without the
`roots` capability. -/
theorem C9_notification_replay_witness :
    (handleNotification (handleNotification (initialClient 0 [])
        "notifications/cancelled" 0).1 "notifications/cancelled" 1).2 = none
  ∧ (handleNotification (handleNotification (initialClient 0 [])
        "notifications/initialized" 0).1 "notifications/initialized" 1).2 = none
  ∧ ((handleNotification (handleNotification (initialClient 0 ["roots"])
        "notifications/initialized" 0).1 "notifications/initialized" 1).2).isSome
      = true :=
  ⟨(C9_notification_replay (initialClient 0 []) 0 1).1,
   (C9_notification_replay (initialClient 0 []) 0 1).2.2.1 (by decide),
   (C9_notification_replay (initialClient 0 ["roots"]) 0 1).2.2.2 (by decide)⟩

theorem b64char_ne_pad (i : Nat) : b64char i ≠ '=' := by
  have h64 : i % 64 < 64 := Nat.mod_lt _ (by norm_num)
  have hall : ∀ j, j < 64 → b64chars.getD j 'A' ≠ '=' := by decide
  exact hall _ h64

theorem b64_no_pad : ∀ b : List Nat, 3 ∣ b.length → '=' ∉ b64encode b
  | [], _ => by simp [b64encode]
  | [b1], h => by simp only [List.length_cons, List.length_nil] at h; omega
  | [b1, b2], h => by simp only [List.length_cons, List.length_nil] at h; omega
  | b1 :: b2 :: b3 :: rest, h => by
    have h3 : 3 ∣ rest.length := by
      simp only [List.length_cons] at h
      omega
    have ih := b64_no_pad rest h3
    intro hmem
    simp only [b64encode, List.mem_cons] at hmem
    rcases hmem with h1 | h1 | h1 | h1 | h1
    · exact b64char_ne_pad _ h1.symm
    · exact b64char_ne_pad _ h1.symm
    · exact b64char_ne_pad _ h1.symm
    · exact b64char_ne_pad _ h1.symm
    · exact ih h1

theorem readChunks_dropLast_length {α : Type} (cs : Nat) :
    ∀ (n : Nat) (b : List α), b.length ≤ n →
      ∀ ch ∈ (readChunks cs b).dropLast, ch.length = cs := by
  intro n
  induction n with
  | zero =>
    intro b hb ch hch
    have hbnil : b = [] := List.length_eq_zero.mp (Nat.le_zero.mp hb)
    subst hbnil
    rw [readChunks] at hch
    simp at hch
  | succ n ih =>
    intro b hb ch hch
    rw [readChunks] at hch
    by_cases h0 : cs = 0 ∨ b.isEmpty = true
    · rw [dif_pos h0] at hch
      simp at hch
    · rw [dif_neg h0] at hch
      rcases not_or.mp h0 with ⟨hcs, hne⟩
      cases hrec : readChunks cs (b.drop cs) with
      | nil =>
        rw [hrec] at hch
        simp at hch
      | cons y ys =>
        rw [hrec] at hch
        have hd : (b.take cs :: y :: ys).dropLast
            = b.take cs :: (y :: ys).dropLast := rfl
        rw [hd] at hch
        rcases List.mem_cons.mp hch with rfl | hmem
        · have hgt : cs < b.length := by
            by_contra hle
            have hdrop : b.drop cs = [] := by
              apply List.drop_eq_nil_of_le
              omega
            rw [hdrop, readChunks] at hrec
            simp at hrec
          simp [List.length_take]
          omega
        · have hblen : b.length > 0 := by
            have : b ≠ [] := by simpa [List.isEmpty_iff] using hne
            exact List.length_pos.mpr this
          have hdlen : (b.drop cs).length ≤ n := by
            simp only [List.length_drop]
            omega
          have := ih (b.drop cs) hdlen ch
          rw [hrec] at this
          exact this hmem

/-- Claim C5: for a binary stream and a chunk size that is a multiple of 3,
the blob body the streaming encoder emits contains no `=` outside the
encoding of the final chunk, because base64 of a 3-multiple-length input
has no padding; and the default `CHUNK_SIZE = 10 * 1024 + 2 = 10242` is a
multiple of 3. -/
theorem C5_base64_padding (cs : Nat) (mime : List Char) (bytes : List Nat)
    (h3 : 3 ∣ cs) (hbin : isBinaryMime mime = true) :
    streamBodyFragments cs mime (ByteStream.bin bytes)
      = some ((readChunks cs bytes).map b64encode)
    ∧ (∀ f ∈ ((readChunks cs bytes).map b64encode).dropLast, '=' ∉ f)
    ∧ 3 ∣ CHUNK_SIZE ∧ CHUNK_SIZE = 10 * 1024 + 2 := by
  refine ⟨by simp [streamBodyFragments, hbin], ?_, by decide, rfl⟩
  intro f hf
  rw [← List.map_dropLast] at hf
  rcases List.mem_map.mp hf with ⟨ch, hch, rfl⟩
  have hlen : ch.length = cs :=
    readChunks_dropLast_length cs bytes.length bytes le_rfl ch hch
  exact b64_no_pad ch (hlen ▸ h3)

/-- Witness for C5: seven bytes in chunks of 3 under a binary mime type
(`application/pdf`): the first two chunk encodings are padding-free. -/
theorem C5_base64_padding_witness :
    streamBodyFragments 3 "application/pdf".toList
        (ByteStream.bin [0, 1, 2, 3, 4, 5, 6])
      = some ((readChunks 3 [0, 1, 2, 3, 4, 5, 6]).map b64encode)
    ∧ (∀ f ∈ ((readChunks 3 ([0, 1, 2, 3, 4, 5, 6] : List Nat)).map
        b64encode).dropLast, '=' ∉ f)
    ∧ 3 ∣ CHUNK_SIZE ∧ CHUNK_SIZE = 10 * 1024 + 2 :=
  C5_base64_padding 3 "application/pdf".toList [0, 1, 2, 3, 4, 5, 6]
    (by decide) (by decide)

theorem lookup_some_mem {β : Type} :
    ∀ {l : List (Nat × β)} {k : Nat} {v : β}, l.lookup k = some v → (k, v) ∈ l := by
  intro l
  induction l with
  | nil => intro k v h; simp [List.lookup] at h
  | cons e es ih =>
    intro k v h
    rcases e with ⟨a, b⟩
    simp only [List.lookup] at h
    split at h
    · rename_i hba
      have : k = a := by
        have := of_decide_eq_true hba
        exact this
      cases h
      exact this ▸ List.mem_cons_self _ _
    · exact List.mem_cons_of_mem _ (ih h)

theorem not_mem_filter_ne_keys {β : Type} (l : List (Nat × β)) (id : Nat) :
    id ∉ (l.filter fun e => e.1 ≠ id).map Prod.fst := by
  intro hmem
  rcases List.mem_map.mp hmem with ⟨e, he, hfst⟩
  have := List.of_mem_filter he
  rw [hfst] at this
  simp at this

theorem clientStep_inv (c : ClientState) (used : List Nat) (op : ClientOp)
    (h : CallbacksInv c used) :
    CallbacksInv (clientStep c op).1 (used ++ (clientStep c op).2.map Prod.fst) := by
  obtain ⟨h1, h2, h3, h4, h5⟩ := h
  cases op with
  | register method cb now params =>
    refine ⟨?_, ?_, ?_, ?_, ?_⟩ <;>
      simp only [clientStep, createRpcRequest, List.map_append, List.map_cons,
        List.map_nil, List.append_nil]
    · rw [List.nodup_append]
      refine ⟨h1, List.nodup_singleton _, ?_⟩
      intro a ha hb
      simp only [List.mem_singleton] at hb
      subst hb
      exact absurd (h2 _ ha) (by omega)
    · intro k hk
      rcases List.mem_append.mp hk with hk | hk
      · exact Nat.le_succ_of_le (h2 _ hk)
      · simp only [List.mem_singleton] at hk
        omega
    · exact h3
    · intro u hu
      exact Nat.le_succ_of_le (h4 _ hu)
    · intro u hu hmem
      rcases List.mem_append.mp hmem with hm | hm
      · exact h5 u hu hm
      · simp only [List.mem_singleton] at hm
        subst hm
        exact absurd (h4 _ hu) (by omega)
  | response id =>
    simp only [clientStep, handleResponse]
    cases hl : c.responseCallbacks.lookup id with
    | none =>
      simpa using ⟨h1, h2, h3, h4, h5⟩
    | some v =>
      have hidmem : id ∈ c.responseCallbacks.map Prod.fst :=
        List.mem_map.mpr ⟨(id, v), lookup_some_mem hl, rfl⟩
      have hidused : id ∉ used := fun hu => h5 id hu hidmem
      have hsub : (c.responseCallbacks.filter fun e => e.1 ≠ id).map Prod.fst
          |>.Sublist (c.responseCallbacks.map Prod.fst) :=
        List.Sublist.map Prod.fst (List.filter_sublist _)
      refine ⟨?_, ?_, ?_, ?_, ?_⟩ <;>
        simp only [List.map_cons, List.map_nil]
      · exact h1.sublist hsub
      · intro k hk
        exact h2 _ (hsub.subset hk)
      · rw [List.nodup_append]
        exact ⟨h3, List.nodup_singleton _, by
          intro a ha hb
          simp only [List.mem_singleton] at hb
          subst hb
          exact hidused ha⟩
      · intro u hu
        rcases List.mem_append.mp hu with hm | hm
        · exact h4 _ hm
        · simp only [List.mem_singleton] at hm
          subst hm
          exact h2 _ hidmem
      · intro u hu hmem
        rcases List.mem_append.mp hu with hm | hm
        · exact h5 u hm (hsub.subset hmem)
        · simp only [List.mem_singleton] at hm
          subst hm
          exact not_mem_filter_ne_keys _ _ hmem
  | cleanupTick now pt =>
    simp only [clientStep, cleanup, List.map_nil, List.append_nil]
    by_cases hcl : now > c.lastCleanup + CLEANUP_PERIODICITY
    · simp only [if_pos hcl]
      have hsub : ((c.responseCallbacks.dropWhile
            fun e => now > e.2.1 + CLEANUP_PERIODICITY).map Prod.fst).Sublist
          (c.responseCallbacks.map Prod.fst) :=
        List.Sublist.map Prod.fst (List.dropWhile_sublist _)
      exact ⟨h1.sublist hsub, fun k hk => h2 _ (hsub.subset hk), h3, h4,
        fun u hu hm => h5 u hu (hsub.subset hm)⟩
    · simp only [if_neg hcl]
      exact ⟨h1, h2, h3, h4, h5⟩

theorem clientRun_inv : ∀ (ops : List ClientOp) (c : ClientState) (used : List Nat),
    CallbacksInv c used →
    CallbacksInv (clientRun c ops).1 (used ++ (clientRun c ops).2.map Prod.fst) := by
  intro ops
  induction ops with
  | nil =>
    intro c used h
    simpa [clientRun] using h
  | cons op ops ih =>
    intro c used h
    have := ih (clientStep c op).1 (used ++ (clientStep c op).2.map Prod.fst)
      (clientStep_inv c used op h)
    simpa [clientRun, List.map_append, List.append_assoc] using this

/-- Claim C7: over a session's lifetime every registered response callback
is invoked at most once (the invocation ids of any event trace from a fresh
session are distinct — ids name registrations uniquely since
`create_rpc_request` allocates strictly increasing ids); handling a result
frame removes the callback from the pending table, which no longer holds
the id, before invoking it; a result frame whose id has no registered
callback invokes nothing and changes nothing; and cleanup invokes no
callback. -/
theorem C7_callback_at_most_once :
    (∀ (t0 : Int) (caps : List String) (ops : List ClientOp),
       ((clientRun (initialClient t0 caps) ops).2.map Prod.fst).Nodup)
  ∧ (∀ (c : ClientState) (id : Nat) (v : Int × Nat),
       c.responseCallbacks.lookup id = some v →
       handleResponse c id
         = ({ c with responseCallbacks :=
               c.responseCallbacks.filter fun e => e.1 ≠ id }, [(id, v.2)])
       ∧ id ∉ (handleResponse c id).1.responseCallbacks.map Prod.fst)
  ∧ (∀ (c : ClientState) (id : Nat),
       c.responseCallbacks.lookup id = none → handleResponse c id = (c, []))
  ∧ (∀ (c : ClientState) (now pt : Int),
       clientStep c (ClientOp.cleanupTick now pt) = ((cleanup c now pt).1, [])) := by
  refine ⟨?_, ?_, ?_, fun c now pt => rfl⟩
  · intro t0 caps ops
    have hinit : CallbacksInv (initialClient t0 caps) [] := by
      refine ⟨?_, ?_, ?_, ?_, ?_⟩ <;> simp [initialClient]
    have := clientRun_inv ops (initialClient t0 caps) [] hinit
    exact this.2.2.1
  · intro c id v hl
    have heq : handleResponse c id
        = ({ c with responseCallbacks :=
              c.responseCallbacks.filter fun e => e.1 ≠ id }, [(id, v.2)]) := by
      simp [handleResponse, hl]
    exact ⟨heq, by rw [heq]; exact not_mem_filter_ne_keys _ _⟩
  · intro c id hl
    simp [handleResponse, hl]

/-- Witness for C7: a concrete trace registering two callbacks and
delivering one result twice — the callback runs once and the replay is
dropped — plus the pop-before-invoke and cleanup facts at concrete
states. -/
theorem C7_callback_at_most_once_witness :
    ((clientRun (initialClient 0 [])
        [ClientOp.register "roots/list" 5 0 Json.null,
         ClientOp.register "sampling/createMessage" 6 1 Json.null,
         ClientOp.response 1, ClientOp.response 1,
         ClientOp.cleanupTick 20 5]).2.map Prod.fst).Nodup
    ∧ handleResponse ⟨1, [(1, 0, 5)], 0, 0, []⟩ 1
        = (⟨1, [], 0, 0, []⟩, [(1, 5)])
    ∧ handleResponse ⟨1, [(1, 0, 5)], 0, 0, []⟩ 2 = (⟨1, [(1, 0, 5)], 0, 0, []⟩, []) := by
  refine ⟨C7_callback_at_most_once.1 0 [] _, ?_, ?_⟩
  · have h := (C7_callback_at_most_once.2.1 ⟨1, [(1, 0, 5)], 0, 0, []⟩ 1 (0, 5)
      (by rfl)).1
    rw [h]
    rfl
  · exact C7_callback_at_most_once.2.2.1 ⟨1, [(1, 0, 5)], 0, 0, []⟩ 2 (by rfl)

theorem matchHole_sound {n s : List Char}
    {f : Nat → Option (List (List Char × List Char))} :
    ∀ (j k : Nat) (m : List (List Char × List Char)),
      s.length + 1 - k ≤ j → matchHole n s f k = some m →
      ∃ k' m', k ≤ k' ∧ k' ≤ s.length ∧ '\n' ∉ s.take k' ∧ f k' = some m'
        ∧ m = (n, s.take k') :: m' := by
  intro j
  induction j with
  | zero =>
    intro k m hj h
    rw [matchHole] at h
    rw [if_pos (by omega)] at h
    exact Option.noConfusion h
  | succ j ih =>
    intro k m hj h
    rw [matchHole] at h
    by_cases hk : k > s.length
    · rw [if_pos hk] at h
      exact Option.noConfusion h
    · rw [if_neg hk] at h
      by_cases hnl : '\n' ∈ s.take k
      · simp only [if_pos hnl] at h
        exact Option.noConfusion h
      · simp only [if_neg hnl] at h
        cases hf : f k with
        | some m' =>
          rw [hf] at h
          cases h
          exact ⟨k, m', le_refl k, by omega, hnl, hf, rfl⟩
        | none =>
          rw [hf] at h
          obtain ⟨k', m', hk1, hk2, h3, h4, h5⟩ := ih (k + 1) m (by omega) h
          exact ⟨k', m', by omega, hk2, h3, h4, h5⟩

theorem matchHole_complete {n s : List Char}
    {f : Nat → Option (List (List Char × List Char))} (k₀ : Nat)
    (hk₀ : k₀ ≤ s.length) (hnl : '\n' ∉ s.take k₀) (hf : (f k₀).isSome) :
    ∀ (j k : Nat), k₀ - k ≤ j → 1 ≤ k → k ≤ k₀ → (matchHole n s f k).isSome := by
  intro j
  induction j with
  | zero =>
    intro k hj h1 hk
    have hkk : k = k₀ := by omega
    subst hkk
    rw [matchHole, if_neg (by omega)]
    simp only [if_neg hnl]
    cases hfk : f k with
    | some m => simp [hfk]
    | none =>
      rw [hfk] at hf
      exact absurd hf (by simp)
  | succ j ih =>
    intro k hj h1 hk
    rw [matchHole, if_neg (by omega)]
    have hnlk : '\n' ∉ s.take k := by
      intro hmem
      apply hnl
      have hkk : (s.take k₀).take k = s.take k := by
        rw [List.take_take]
        congr 1
        omega
      exact List.take_subset _ _ (hkk.symm ▸ hmem)
    simp only [if_neg hnlk]
    cases hfk : f k with
    | some m => simp [hfk]
    | none =>
      simp only [hfk]
      have hklt : k < k₀ := by
        rcases Nat.lt_or_ge k k₀ with h | h
        · exact h
        · have hkk : k = k₀ := by omega
          subst hkk
          rw [hfk] at hf
          exact absurd hf (by simp)
      exact ih (k + 1) (by omega) (by omega) (by omega)

theorem matchSegs_sound : ∀ (segs : List Seg) (s : List Char)
    (m : List (List Char × List Char)),
    matchSegs segs s = some m → SegsMatchWith segs s m := by
  intro segs
  induction segs with
  | nil =>
    intro s m h
    cases s with
    | nil =>
      simp only [matchSegs] at h
      cases h
      exact SegsMatchWith.nil
    | cons c s' => simp [matchSegs] at h
  | cons seg segs ih =>
    cases seg with
    | lit c =>
      intro s m h
      cases s with
      | nil => simp [matchSegs] at h
      | cons c' s' =>
        simp only [matchSegs] at h
        by_cases hc : c = c'
        · rw [if_pos hc] at h
          subst hc
          exact SegsMatchWith.lit (ih s' m h)
        · rw [if_neg hc] at h
          exact Option.noConfusion h
    | hole n =>
      intro s m h
      simp only [matchSegs] at h
      obtain ⟨k', m', hk1, hk2, hnl, hf, rfl⟩ :=
        matchHole_sound (s.length + 1) 1 m (by omega) h
      have hw := ih (s.drop k') m' hf
      have hne : s.take k' ≠ [] := by
        have hlen : (s.take k').length = k' := by
          rw [List.length_take]
          omega
        intro hnil
        rw [hnil] at hlen
        simp at hlen
        omega
      have hh := @SegsMatchWith.hole n _ _ _ _ hne hnl hw
      rwa [List.take_append_drop] at hh

theorem matchSegs_complete : ∀ (segs : List Seg) (s : List Char)
    (m : List (List Char × List Char)),
    SegsMatchWith segs s m → (matchSegs segs s).isSome := by
  intro segs
  induction segs with
  | nil =>
    intro s m h
    cases h
    simp [matchSegs]
  | cons seg segs ih =>
    intro s m h
    cases h with
    | lit hw =>
      simp only [matchSegs, if_true]
      exact ih _ _ hw
    | hole hne hnl hw =>
      rename_i part s₁ m₁
      simp only [matchSegs]
      have hk₀ : part.length ≤ (part ++ s₁).length := by simp
      have hnl' : '\n' ∉ (part ++ s₁).take part.length := by
        rw [List.take_left]
        exact hnl
      have hf : ((fun k => matchSegs segs ((part ++ s₁).drop k))
          part.length).isSome := by
        simp only [List.drop_left]
        exact ih _ _ hw
      exact matchHole_complete part.length hk₀ hnl' hf part.length 1 (by omega)
        (le_refl 1) (List.length_pos.mpr hne)

theorem matchSegs_eq_none_of_not_match {segs : List Seg} {uri : List Char}
    (h : ¬ SegsMatch segs uri) : matchSegs segs uri = none := by
  cases hm : matchSegs segs uri with
  | none => rfl
  | some m => exact absurd ⟨m, matchSegs_sound segs uri m hm⟩ h

theorem firstTemplateMatch_skip :
    ∀ (pre rest : List (List Char × List Seg × ResourceDef)) (uri : List Char),
      (∀ e ∈ pre, matchSegs e.2.1 uri = none) →
      firstTemplateMatch (pre ++ rest) uri = firstTemplateMatch rest uri := by
  intro pre
  induction pre with
  | nil => intro rest uri _; rfl
  | cons e es ih =>
    intro rest uri hnone
    rcases e with ⟨turi, segs, rd⟩
    have he : matchSegs segs uri = none := hnone _ (List.mem_cons_self _ _)
    simp only [List.cons_append, firstTemplateMatch, he]
    exact ih rest uri (fun e he' => hnone e (List.mem_cons_of_mem _ he'))

/-- Claim C8: `resources/read` uses the handler of a registered concrete
resource when the URI is one; otherwise it scans the template resources in
insertion order and picks the first whose compiled pattern fully matches
the URI (`matchSegs` is sound and complete for the full-match-with-captures
semantics of the `(?P<name>.+?)` pattern), passing the captured groups to
the handler as keyword arguments; when nothing matches it answers
`INVALID_PARAMS` (-32602) without invoking any handler; on success the
handler's return value is coerced to `(uri, mime_type, stream)` triples for
the streaming encoder; and `register` derives the pattern from the URI,
storing it as concrete exactly when the substitution changed nothing. -/
theorem C8_resources_read_dispatch (s : ResourcesState) (uri : List Char) :
    (∀ rd, s.concrete.lookup uri = some rd →
       Resources.read s uri = Resources.finishRead uri rd [])
  ∧ (∀ (segs : List Seg) (m : List (List Char × List Char)),
       matchSegs segs uri = some m → SegsMatchWith segs uri m)
  ∧ (∀ segs : List Seg, SegsMatch segs uri → (matchSegs segs uri).isSome)
  ∧ (s.concrete.lookup uri = none →
     ∀ (pre : List (List Char × List Seg × ResourceDef)) (turi : List Char)
       (segs : List Seg) (rd : ResourceDef)
       (post : List (List Char × List Seg × ResourceDef)),
       s.templates = pre ++ (turi, segs, rd) :: post →
       (∀ e ∈ pre, ¬ SegsMatch e.2.1 uri) →
       SegsMatch segs uri →
       ∃ m, matchSegs segs uri = some m ∧ SegsMatchWith segs uri m
         ∧ Resources.read s uri = Resources.finishRead turi rd m)
  ∧ (s.concrete.lookup uri = none →
       (∀ e ∈ s.templates, ¬ SegsMatch e.2.1 uri) →
       Resources.read s uri
         = (ReadOutcome.errorFrame INVALID_PARAMS "resource not found", none))
  ∧ (∀ (turi : List Char) (rd : ResourceDef)
       (m : List (List Char × List Char)) (d : ResData),
       rd.handler turi rd.name m = .ok d →
       Resources.finishRead turi rd m
         = (ReadOutcome.streaming
             (d.items.map fun i => (turi, rd.mimeType, toByteStream i)),
            some ⟨turi, rd.name, m⟩))
  ∧ (∀ (st : ResourcesState) (u : List Char) (rd : ResourceDef),
       Resources.register st u rd
         = if hasHole (scanTemplate u) then
             { st with templates := dictInsert st.templates u (scanTemplate u, rd) }
           else { st with concrete := dictInsert st.concrete u rd }) := by
  refine ⟨?_, fun segs m hm => matchSegs_sound segs uri m hm, ?_, ?_, ?_, ?_,
    fun st u rd => rfl⟩
  · intro rd h
    simp [Resources.read, h]
  · rintro segs ⟨m, hw⟩
    exact matchSegs_complete segs uri m hw
  · intro hnone pre turi segs rd post htempl hpre hmatch
    rcases hmatch with ⟨m₀, hw₀⟩
    have hsome := matchSegs_complete segs uri m₀ hw₀
    rcases Option.isSome_iff_exists.mp hsome with ⟨m, hm⟩
    have hw := matchSegs_sound segs uri m hm
    have hskip := firstTemplateMatch_skip pre ((turi, segs, rd) :: post) uri
      (fun e he => matchSegs_eq_none_of_not_match (hpre e he))
    refine ⟨m, hm, hw, ?_⟩
    simp [Resources.read, hnone, htempl, hskip, firstTemplateMatch, hm]
  · intro hnone hall
    have hft : firstTemplateMatch s.templates uri = none := by
      have := firstTemplateMatch_skip s.templates [] uri
        (fun e he => matchSegs_eq_none_of_not_match (hall e he))
      rwa [List.append_nil] at this
    simp [Resources.read, hnone, hft]
  · intro turi rd m d h
    simp [Resources.finishRead, h]

/-- Witness for C8 at a concrete registry: the template `f\x7bp\x7d`
(segments `[lit f, hole p]`) matching the URI `fx` with capture
`p := x`, plus the concrete-resource and no-match branches. -/
theorem C8_resources_read_dispatch_witness :
    (∃ m, matchSegs [Seg.lit 'f', Seg.hole ['p']] ['f', 'x'] = some m
       ∧ SegsMatchWith [Seg.lit 'f', Seg.hole ['p']] ['f', 'x'] m
       ∧ Resources.read
           ⟨[], [(['f', '\x7b', 'p', '\x7d'], [Seg.lit 'f', Seg.hole ['p']],
              ⟨fun _ _ _ => .ok (ResData.single (ResItem.strItem ['h'])),
               ['n'], ['m'], []⟩)]⟩ ['f', 'x']
         = Resources.finishRead ['f', '\x7b', 'p', '\x7d']
             ⟨fun _ _ _ => .ok (ResData.single (ResItem.strItem ['h'])),
              ['n'], ['m'], []⟩ m)
    ∧ Resources.read (⟨[], []⟩ : ResourcesState) ['f', 'x']
        = (ReadOutcome.errorFrame INVALID_PARAMS "resource not found", none) := by
  constructor
  · refine (C8_resources_read_dispatch
      ⟨[], [(['f', '\x7b', 'p', '\x7d'], [Seg.lit 'f', Seg.hole ['p']],
         ⟨fun _ _ _ => .ok (ResData.single (ResItem.strItem ['h'])),
          ['n'], ['m'], []⟩)]⟩ ['f', 'x']).2.2.2.1 rfl [] _ _ _ [] rfl
      (fun e he => absurd he (List.not_mem_nil e)) ?_
    exact ⟨[(['p'], ['x'])],
      SegsMatchWith.lit (@SegsMatchWith.hole _ ['x'] _ _ _ (by decide) (by decide)
        SegsMatchWith.nil)⟩
  · exact (C8_resources_read_dispatch ⟨[], []⟩ ['f', 'x']).2.2.2.2.1 rfl
      (fun e he => absurd he (List.not_mem_nil e))

theorem skipWs_cons_of_no_ws {c : Char} (h : isJsonWs c = false) (X : List Char) :
    skipWs (c :: X) = c :: X := by
  simp [skipWs, List.dropWhile_cons, h]

theorem skipWs_cons_space (X : List Char) : skipWs (' ' :: X) = skipWs X := by
  simp [skipWs, List.dropWhile_cons, isJsonWs]

theorem strBodyOk_append {a b : List Char} (ha : StrBodyOk a) (hb : StrBodyOk b) :
    StrBodyOk (a ++ b) := by
  induction ha with
  | nil => exact hb
  | plain hc _ ih => exact StrBodyOk.plain hc ih
  | esc2 hc _ ih => exact StrBodyOk.esc2 hc ih
  | escU h1 h2 h3 h4 _ ih => exact StrBodyOk.escU h1 h2 h3 h4 ih

theorem strBodyOk_of_plain : ∀ {s : List Char}, (∀ c ∈ s, PlainChar c) → StrBodyOk s := by
  intro s
  induction s with
  | nil => intro _; exact .nil
  | cons c cs ih =>
    intro h
    exact .plain (h c (List.mem_cons_self c cs))
      (ih fun x hx => h x (List.mem_cons_of_mem c hx))

theorem strBodyOk_flatten : ∀ {L : List (List Char)},
    (∀ x ∈ L, StrBodyOk x) → StrBodyOk L.flatten := by
  intro L
  induction L with
  | nil => intro _; exact .nil
  | cons x xs ih =>
    intro h
    rw [List.flatten_cons]
    exact strBodyOk_append (h x (List.mem_cons_self x xs))
      (ih fun y hy => h y (List.mem_cons_of_mem x hy))

theorem parseStringBody_ok : ∀ {b : List Char}, StrBodyOk b →
    ∀ rest, parseStringBody (b ++ '"' :: rest) = some rest := by
  intro b hb
  induction hb with
  | nil =>
    intro rest
    conv_lhs => rw [parseStringBody.eq_def]
    simp
  | plain hc hs ih =>
    intro rest
    rename_i c s
    rw [List.cons_append]
    conv_lhs => rw [parseStringBody.eq_def]
    simp only [if_neg hc.2.1, if_neg hc.2.2, if_pos hc.1]
    exact ih rest
  | esc2 hc hs ih =>
    intro rest
    rename_i e s
    have hu : e ≠ 'u' := by
      intro he
      subst he
      revert hc
      decide
    rw [List.cons_append, List.cons_append]
    conv_lhs => rw [parseStringBody.eq_def]
    simp only [if_neg (by decide : ¬ ('\\' : Char) = '"'), if_pos rfl,
      if_neg hu, if_pos hc, if_true]
    exact ih rest
  | escU h1 h2 h3 h4 hs ih =>
    intro rest
    rename_i c1 c2 c3 c4 s
    rw [List.cons_append, List.cons_append, List.cons_append, List.cons_append,
      List.cons_append, List.cons_append]
    conv_lhs => rw [parseStringBody.eq_def]
    simp only [if_neg (by decide : ¬ ('\\' : Char) = '"'), if_pos rfl]
    rw [if_pos (show (isHexDigit c1 && isHexDigit c2 && isHexDigit c3
      && isHexDigit c4) = true by simp [h1, h2, h3, h4])]
    exact ih rest

theorem plainChar_b64char (i : Nat) : PlainChar (b64char i) := by
  have h64 : i % 64 < 64 := Nat.mod_lt _ (by norm_num)
  have hall : ∀ j, j < 64 → PlainChar (b64chars.getD j 'A') := by decide
  exact hall _ h64

theorem plainChar_b64 : ∀ b : List Nat, ∀ c ∈ b64encode b, PlainChar c
  | [], c => by simp [b64encode]
  | [b1], c => by
    intro hc
    simp only [b64encode, List.mem_cons, List.not_mem_nil, or_false] at hc
    rcases hc with rfl | rfl | rfl | rfl
    · exact plainChar_b64char _
    · exact plainChar_b64char _
    · decide
    · decide
  | [b1, b2], c => by
    intro hc
    simp only [b64encode, List.mem_cons, List.not_mem_nil, or_false] at hc
    rcases hc with rfl | rfl | rfl | rfl
    · exact plainChar_b64char _
    · exact plainChar_b64char _
    · exact plainChar_b64char _
    · decide
  | b1 :: b2 :: b3 :: rest, c => by
    intro hc
    simp only [b64encode, List.mem_cons] at hc
    rcases hc with rfl | rfl | rfl | rfl | hmem
    · exact plainChar_b64char _
    · exact plainChar_b64char _
    · exact plainChar_b64char _
    · exact plainChar_b64char _
    · exact plainChar_b64 rest c hmem

theorem isHexDigit_hexDigit (n : Nat) : isHexDigit (hexDigit n) = true := by
  have h16 : n % 16 < 16 := Nat.mod_lt _ (by norm_num)
  have hall : ∀ j, j < 16 →
      isHexDigit ("0123456789abcdef".toList.getD j '0') = true := by decide
  exact hall _ h16

theorem strBodyOk_uEscape {s : List Char} (hs : StrBodyOk s) (n : Nat) :
    StrBodyOk (uEscape n ++ s) :=
  StrBodyOk.escU (isHexDigit_hexDigit _) (isHexDigit_hexDigit _)
    (isHexDigit_hexDigit _) (isHexDigit_hexDigit _) hs

theorem strBodyOk_escapeChar {s : List Char} (hs : StrBodyOk s) (c : Char) :
    StrBodyOk (escapeChar c ++ s) := by
  unfold escapeChar
  split_ifs with h1 h2 h3 h4 h5 h6 h7 h8 h9
  · exact .esc2 (by decide) hs
  · exact .esc2 (by decide) hs
  · exact .esc2 (by decide) hs
  · exact .esc2 (by decide) hs
  · exact .esc2 (by decide) hs
  · exact .esc2 (by decide) hs
  · exact .esc2 (by decide) hs
  · exact .plain ⟨h8.1, h1, h2⟩ hs
  · exact strBodyOk_uEscape hs _
  · rw [List.append_assoc]
    exact strBodyOk_uEscape (strBodyOk_uEscape hs _) _

theorem strBodyOk_jsonStringBody (s : List Char) : StrBodyOk (jsonStringBody s) := by
  induction s with
  | nil => exact .nil
  | cons c cs ih =>
    simp only [jsonStringBody, List.map_cons, List.flatten_cons]
    exact strBodyOk_escapeChar ih c

theorem strBodyOk_entryBody (cs : Nat) (mime : List Char) (st : ByteStream) :
    StrBodyOk (entryBodyChars cs mime st) := by
  cases st with
  | bin b =>
    apply strBodyOk_flatten
    intro x hx
    rcases List.mem_map.mp hx with ⟨ch, _, rfl⟩
    exact strBodyOk_of_plain (plainChar_b64 ch)
  | text t =>
    apply strBodyOk_flatten
    intro x hx
    rcases List.mem_map.mp hx with ⟨ch, _, rfl⟩
    exact strBodyOk_jsonStringBody ch

theorem pv_string {f : Nat} {s rest : List Char} (h : skipWs s = '"' :: rest) :
    parseValue (f + 1) s = parseStringBody rest := by
  rw [parseValue, h]
  simp

theorem pv_plain_string {f : Nat} {s P X : List Char}
    (h : skipWs s = '"' :: (P ++ '"' :: X)) (hP : StrBodyOk P) :
    parseValue (f + 1) s = some X := by
  rw [pv_string h]
  exact parseStringBody_ok hP X

theorem pv_obj {f : Nat} {s rest : List Char} (h : skipWs s = '\x7b' :: rest) :
    parseValue (f + 1) s = parseMembers f rest := by
  rw [parseValue, h]
  simp

theorem pv_arr {f : Nat} {s rest : List Char} (h : skipWs s = '[' :: rest) :
    parseValue (f + 1) s = parseElements f rest := by
  rw [parseValue, h]
  simp

theorem pv_null {f : Nat} {s rest : List Char} (h : skipWs s = 'n' :: rest) :
    parseValue (f + 1) s = dropLit "ull".toList rest := by
  rw [parseValue, h]
  simp

theorem pv_num {f : Nat} {s rest : List Char} {c : Char} (h : skipWs s = c :: rest)
    (h1 : c ≠ '"') (h2 : c ≠ '\x7b') (h3 : c ≠ '[') (h4 : c ≠ 't') (h5 : c ≠ 'f')
    (h6 : c ≠ 'n') :
    parseValue (f + 1) s = parseNumber (c :: rest) := by
  rw [parseValue, h]
  simp only [if_neg h1, if_neg h2, if_neg h3, if_neg h4, if_neg h5, if_neg h6]

theorem pm_close {f : Nat} {s rest : List Char} (h : skipWs s = '\x7d' :: rest) :
    parseMembers (f + 1) s = some rest := by
  rw [parseMembers, h]
  rfl

theorem pm_key {f : Nat} {s rest : List Char} (h : skipWs s = '"' :: rest) :
    parseMembers (f + 1) s = parseMemberList f ('"' :: rest) := by
  rw [parseMembers, h]
  rfl

theorem pml_step {f : Nat} {s rest afterKey afterColon afterVal rest2 : List Char}
    (h : skipWs s = '"' :: rest)
    (hkey : parseStringBody rest = some afterKey)
    (hcolon : skipWs afterKey = ':' :: afterColon)
    (hval : parseValue f afterColon = some afterVal) :
    (skipWs afterVal = ',' :: rest2 → parseMemberList (f + 1) s = parseMemberList f rest2)
    ∧ (skipWs afterVal = '\x7d' :: rest2 → parseMemberList (f + 1) s = some rest2) := by
  constructor <;> intro hend <;>
    · rw [parseMemberList, h]
      simp [hkey, hcolon, hval, hend]

theorem pe_close {f : Nat} {s rest : List Char} (h : skipWs s = ']' :: rest) :
    parseElements (f + 1) s = some rest := by
  rw [parseElements, h]
  rfl

theorem pe_enter {f : Nat} {s rest : List Char} (h : skipWs s = '\x7b' :: rest) :
    parseElements (f + 1) s = parseElementList f ('\x7b' :: rest) := by
  rw [parseElements, h]
  rfl

theorem pel_step {f : Nat} {s afterVal rest2 : List Char}
    (hval : parseValue f s = some afterVal) :
    (skipWs afterVal = ',' :: rest2 →
      parseElementList (f + 1) s = parseElementList f rest2)
    ∧ (skipWs afterVal = ']' :: rest2 → parseElementList (f + 1) s = some rest2) := by
  constructor <;> intro hend <;>
    · rw [parseElementList]
      simp [hval, hend]

theorem pml_member {f : Nat} {s K X afterVal rest2 : List Char}
    (h : skipWs s = '"' :: (K ++ '"' :: ':' :: ' ' :: X))
    (hK : StrBodyOk K)
    (hval : parseValue f (' ' :: X) = some afterVal) :
    (skipWs afterVal = ',' :: rest2 →
      parseMemberList (f + 1) s = parseMemberList f rest2)
    ∧ (skipWs afterVal = '\x7d' :: rest2 → parseMemberList (f + 1) s = some rest2) :=
  pml_step h (parseStringBody_ok hK _)
    (skipWs_cons_of_no_ws (by decide) _) hval

theorem dropLit_self (lit rest : List Char) :
    dropLit lit (lit ++ rest) = some rest := by
  simp [dropLit, List.take_left, List.drop_left]

theorem hall_digitChar : ∀ m : Nat, isDigit (digitChar m) = true := by
  intro m
  have h10 : m % 10 < 10 := Nat.mod_lt _ (by norm_num)
  have hall : ∀ j, j < 10 → isDigit ("0123456789".toList.getD j '0') = true := by
    decide
  exact hall _ h10

theorem digitChar_one_le : ∀ m : Nat, 1 ≤ m → m < 10 →
    '1' ≤ digitChar m ∧ digitChar m ≤ '9' := by
  intro m h1 h2
  have hall : ∀ j, j < 10 → 1 ≤ j →
      '1' ≤ "0123456789".toList.getD j '0'
        ∧ "0123456789".toList.getD j '0' ≤ '9' := by decide
  have hm : m % 10 = m := Nat.mod_eq_of_lt h2
  unfold digitChar
  rw [hm]
  exact hall m h2 h1

theorem natDigitsAux_spec : ∀ fuel n, n < fuel →
    ∃ d ds, natDigitsAux fuel n = d :: ds
      ∧ isDigit d = true ∧ (∀ c ∈ ds, isDigit c = true)
      ∧ (1 ≤ n → '1' ≤ d ∧ d ≤ '9') := by
  intro fuel
  induction fuel with
  | zero => intro n h; omega
  | succ fuel ih =>
    intro n h
    by_cases h10 : n < 10
    · refine ⟨digitChar n, [], by simp [natDigitsAux, if_pos h10], hall_digitChar n,
        by simp, fun h1 => digitChar_one_le n h1 h10⟩
    · have h1 : n / 10 < fuel := by omega
      obtain ⟨d, ds, heq, hd, hds, hz⟩ := ih (n / 10) h1
      refine ⟨d, ds ++ [digitChar (n % 10)], ?_, hd, ?_, fun _ => hz (by omega)⟩
      · rw [natDigitsAux, if_neg h10, heq]
        rfl
      · intro c hc
        rcases List.mem_append.mp hc with hm | hm
        · exact hds c hm
        · simp only [List.mem_singleton] at hm
          subst hm
          exact hall_digitChar _

theorem isDigit_ne (c : Char) (hd : isDigit c = true) :
    c ≠ '"' ∧ c ≠ '\x7b' ∧ c ≠ '[' ∧ c ≠ 't' ∧ c ≠ 'f' ∧ c ≠ 'n' ∧ c ≠ '-'
      ∧ isJsonWs c = false := by
  refine ⟨?_, ?_, ?_, ?_, ?_, ?_, ?_, ?_⟩
  · intro he; rw [he] at hd; exact absurd hd (by decide)
  · intro he; rw [he] at hd; exact absurd hd (by decide)
  · intro he; rw [he] at hd; exact absurd hd (by decide)
  · intro he; rw [he] at hd; exact absurd hd (by decide)
  · intro he; rw [he] at hd; exact absurd hd (by decide)
  · intro he; rw [he] at hd; exact absurd hd (by decide)
  · intro he; rw [he] at hd; exact absurd hd (by decide)
  · by_contra hws
    have hws' : isJsonWs c = true := by
      revert hws
      cases isJsonWs c <;> simp
    simp only [isJsonWs, Bool.or_eq_true, decide_eq_true_eq] at hws'
    rcases hws' with ((rfl | rfl) | rfl) | rfl <;> exact absurd hd (by decide)

theorem dropWhile_digits_append :
    ∀ (ds : List Char) (r : List Char), (∀ c ∈ ds, isDigit c = true) →
      (ds ++ ',' :: r).dropWhile isDigit = ',' :: r := by
  intro ds
  induction ds with
  | nil =>
    intro r _
    have h : isDigit ',' = false := by decide
    simp [List.dropWhile_cons, h]
  | cons d ds ih =>
    intro r hds
    rw [List.cons_append, List.dropWhile_cons, hds d (List.mem_cons_self d ds)]
    simpa using ih r (fun c hc => hds c (List.mem_cons_of_mem d hc))

theorem parseFrac_comma (X : List Char) : parseFrac (',' :: X) = some (',' :: X) := rfl

theorem parseExp_comma (X : List Char) : parseExp (',' :: X) = some (',' :: X) := rfl

theorem parseNumber_zero (X : List Char) :
    parseNumber ('0' :: ',' :: X) = some (',' :: X) := rfl

theorem parseNumber_neg_zero (X : List Char) :
    parseNumber ('-' :: '0' :: ',' :: X) = some (',' :: X) := rfl

theorem parseNumber_pos {d : Char} {ds X : List Char}
    (h1 : '1' ≤ d) (h9 : d ≤ '9') (hds : ∀ c ∈ ds, isDigit c = true) :
    parseNumber ((d :: ds) ++ ',' :: X) = some (',' :: X) := by
  have hdm : d ≠ '-' := by
    intro he
    subst he
    exact absurd h1 (by decide)
  have hd0 : d ≠ '0' := by
    intro he
    subst he
    exact absurd h1 (by decide)
  unfold parseNumber
  simp only [List.cons_append, List.head?_cons]
  rw [if_neg (by simp [hdm])]
  simp only [if_neg hd0]
  rw [if_pos ⟨h1, h9⟩, dropWhile_digits_append ds X hds, parseFrac_comma]
  simp [parseExp_comma]

theorem parseNumber_neg_pos {d : Char} {ds X : List Char}
    (h1 : '1' ≤ d) (h9 : d ≤ '9') (hds : ∀ c ∈ ds, isDigit c = true) :
    parseNumber ('-' :: ((d :: ds) ++ ',' :: X)) = some (',' :: X) := by
  have hd0 : d ≠ '0' := by
    intro he
    subst he
    exact absurd h1 (by decide)
  unfold parseNumber
  simp only [List.cons_append, List.head?_cons]
  simp only [if_true, List.tail_cons]
  simp only [if_neg hd0]
  rw [if_pos ⟨h1, h9⟩, dropWhile_digits_append ds X hds, parseFrac_comma]
  simp [parseExp_comma]

theorem pv_rpcId (f : Nat) (id : RpcId) (X : List Char) :
    parseValue (f + 1) (' ' :: (rpcIdChars id ++ ',' :: X)) = some (',' :: X) := by
  cases id with
  | null =>
    have h : skipWs (' ' :: (rpcIdChars RpcId.null ++ ',' :: X))
        = 'n' :: ("ull".toList ++ ',' :: X) := rfl
    rw [pv_null h]
    exact dropLit_self _ _
  | str s =>
    have h : skipWs (' ' :: (rpcIdChars (RpcId.str s) ++ ',' :: X))
        = '"' :: (jsonStringBody s ++ '"' :: ',' :: X) := by
      rw [skipWs_cons_space]
      rw [show rpcIdChars (RpcId.str s) ++ ',' :: X
          = '"' :: (jsonStringBody s ++ '"' :: ',' :: X) from by
        simp [rpcIdChars, List.append_assoc]]
      exact skipWs_cons_of_no_ws (by decide) _
    exact pv_plain_string h (strBodyOk_jsonStringBody s)
  | num n =>
    by_cases hn0 : n.natAbs = 0
    · have hn : ¬ n < 0 := by omega
      have h : skipWs (' ' :: (rpcIdChars (RpcId.num n) ++ ',' :: X))
          = '0' :: (',' :: X) := by
        rw [skipWs_cons_space]
        rw [show rpcIdChars (RpcId.num n) ++ ',' :: X = '0' :: ',' :: X from by
          simp [rpcIdChars, if_neg hn, hn0, natChars, natDigitsAux, digitChar]]
        exact skipWs_cons_of_no_ws (by decide) _
      rw [pv_num h (by decide) (by decide) (by decide) (by decide) (by decide)
        (by decide)]
      exact parseNumber_zero X
    · obtain ⟨d, ds, heq, hd, hds, hz⟩ :=
        natDigitsAux_spec (n.natAbs + 1) n.natAbs (by omega)
      have hrange := hz (by omega)
      have hne := isDigit_ne d hd
      by_cases hn : n < 0
      · have h : skipWs (' ' :: (rpcIdChars (RpcId.num n) ++ ',' :: X))
            = '-' :: ((d :: ds) ++ ',' :: X) := by
          rw [skipWs_cons_space]
          rw [show rpcIdChars (RpcId.num n) ++ ',' :: X
              = '-' :: ((d :: ds) ++ ',' :: X) from by
            simp [rpcIdChars, if_pos hn, natChars, heq]]
          exact skipWs_cons_of_no_ws (by decide) _
        rw [pv_num h (by decide) (by decide) (by decide) (by decide) (by decide)
          (by decide)]
        exact parseNumber_neg_pos hrange.1 hrange.2 hds
      · have h : skipWs (' ' :: (rpcIdChars (RpcId.num n) ++ ',' :: X))
            = d :: (ds ++ ',' :: X) := by
          rw [skipWs_cons_space]
          rw [show rpcIdChars (RpcId.num n) ++ ',' :: X
              = d :: (ds ++ ',' :: X) from by
            simp [rpcIdChars, if_neg hn, natChars, heq]]
          exact skipWs_cons_of_no_ws hne.2.2.2.2.2.2.2 _
        rw [pv_num h hne.1 hne.2.1 hne.2.2.1 hne.2.2.2.1 hne.2.2.2.2.1
          hne.2.2.2.2.2.1]
        exact parseNumber_pos hrange.1 hrange.2 hds

theorem skipWs_quote (X : List Char) : skipWs ('"' :: X) = '"' :: X :=
  skipWs_cons_of_no_ws (by decide) X

theorem skipWs_comma (X : List Char) : skipWs (',' :: X) = ',' :: X :=
  skipWs_cons_of_no_ws (by decide) X

theorem skipWs_lbrace (X : List Char) : skipWs ('\x7b' :: X) = '\x7b' :: X :=
  skipWs_cons_of_no_ws (by decide) X

theorem skipWs_rbrace (X : List Char) : skipWs ('\x7d' :: X) = '\x7d' :: X :=
  skipWs_cons_of_no_ws (by decide) X

theorem skipWs_rbracket (X : List Char) : skipWs (']' :: X) = ']' :: X :=
  skipWs_cons_of_no_ws (by decide) X

theorem skipWs_space_quote (X : List Char) : skipWs (' ' :: '"' :: X) = '"' :: X := by
  rw [skipWs_cons_space]
  exact skipWs_quote X

theorem skipWs_space_lbrace (X : List Char) :
    skipWs (' ' :: '\x7b' :: X) = '\x7b' :: X := by
  rw [skipWs_cons_space]
  exact skipWs_lbrace X

theorem skipWs_space_lbracket (X : List Char) :
    skipWs (' ' :: '[' :: X) = '[' :: X := by
  rw [skipWs_cons_space]
  exact skipWs_cons_of_no_ws (by decide) X

theorem parseValue_ws (f : Nat) (X : List Char) :
    parseValue f (' ' :: X) = parseValue f X := by
  cases f with
  | zero => rfl
  | succ g => simp only [parseValue, skipWs_cons_space]

theorem parseElementList_ws (f : Nat) (X : List Char) :
    parseElementList f (' ' :: X) = parseElementList f X := by
  cases f with
  | zero => rfl
  | succ g => simp only [parseElementList, parseValue_ws]

theorem pe_enter2 {f : Nat} {s : List Char} (h2 : s.head? = some '\x7b') :
    parseElements (f + 1) s = parseElementList f s := by
  cases s with
  | nil => simp at h2
  | cons c X =>
    have hc : c = '\x7b' := by simpa using h2
    subst hc
    exact pe_enter (skipWs_lbrace X)

/-- Running the member-list parser through the body of one `contents` entry
object: the three members `uri`, `mimeType`, and `blob`/`text` (all with
well-formed string values) up to and past the closing brace. -/
theorem pml_entry {f : Nat} (u m K3 body rest : List Char)
    (hu : ∀ c ∈ u, PlainChar c) (hm : ∀ c ∈ m, PlainChar c)
    (hK3 : StrBodyOk K3) (hbody : StrBodyOk body) :
    parseMemberList (f + 4)
      ('"' :: ("uri".toList ++ '"' :: ':' :: ' ' ::
        ('"' :: (u ++ '"' :: ',' :: ' ' ::
        ('"' :: ("mimeType".toList ++ '"' :: ':' :: ' ' ::
        ('"' :: (m ++ '"' :: ',' :: ' ' ::
        ('"' :: (K3 ++ '"' :: ':' :: ' ' ::
        ('"' :: (body ++ '"' :: '\x7d' :: rest)))))))))))) = some rest := by
  have hval1 : parseValue (f + 3)
      (' ' :: ('"' :: (u ++ '"' :: ',' :: ' ' ::
        ('"' :: ("mimeType".toList ++ '"' :: ':' :: ' ' ::
        ('"' :: (m ++ '"' :: ',' :: ' ' ::
        ('"' :: (K3 ++ '"' :: ':' :: ' ' ::
        ('"' :: (body ++ '"' :: '\x7d' :: rest)))))))))))
      = some (',' :: ' ' ::
        ('"' :: ("mimeType".toList ++ '"' :: ':' :: ' ' ::
        ('"' :: (m ++ '"' :: ',' :: ' ' ::
        ('"' :: (K3 ++ '"' :: ':' :: ' ' ::
        ('"' :: (body ++ '"' :: '\x7d' :: rest))))))))) := by
    refine pv_plain_string ?_ (strBodyOk_of_plain hu)
    exact skipWs_space_quote _
  rw [(pml_member (skipWs_quote _) (strBodyOk_of_plain (by decide)) hval1).1
    (skipWs_comma _)]
  have hval2 : parseValue (f + 2)
      (' ' :: ('"' :: (m ++ '"' :: ',' :: ' ' ::
        ('"' :: (K3 ++ '"' :: ':' :: ' ' ::
        ('"' :: (body ++ '"' :: '\x7d' :: rest)))))))
      = some (',' :: ' ' ::
        ('"' :: (K3 ++ '"' :: ':' :: ' ' ::
        ('"' :: (body ++ '"' :: '\x7d' :: rest))))) := by
    refine pv_plain_string ?_ (strBodyOk_of_plain hm)
    exact skipWs_space_quote _
  rw [(pml_member (skipWs_space_quote _) (strBodyOk_of_plain (by decide)) hval2).1
    (skipWs_comma _)]
  have hval3 : parseValue (f + 1)
      (' ' :: ('"' :: (body ++ '"' :: '\x7d' :: rest))) = some ('\x7d' :: rest) := by
    refine pv_plain_string ?_ hbody
    exact skipWs_space_quote _
  rw [(pml_member (skipWs_space_quote _) hK3 hval3).2 (skipWs_rbrace _)]

/-- Parsing one serialized `contents` entry object consumes exactly the
entry's characters. -/
theorem parseValue_entry (cs : Nat) (u m : List Char) (st : ByteStream)
    (hu : ∀ c ∈ u, PlainChar c) (hm : ∀ c ∈ m, PlainChar c)
    (f : Nat) (rest : List Char) :
    parseValue (f + 6) (entryObjChars cs (u, m, st) ++ rest) = some rest := by
  have hK3 : StrBodyOk (if isBinaryMime m then "blob".toList else "text".toList) := by
    split_ifs <;> exact strBodyOk_of_plain (by decide)
  have hshape : entryObjChars cs (u, m, st) ++ rest
      = '\x7b' :: '"' :: ("uri".toList ++ '"' :: ':' :: ' ' ::
        ('"' :: (u ++ '"' :: ',' :: ' ' ::
        ('"' :: ("mimeType".toList ++ '"' :: ':' :: ' ' ::
        ('"' :: (m ++ '"' :: ',' :: ' ' ::
        ('"' :: ((if isBinaryMime m then "blob".toList else "text".toList)
            ++ '"' :: ':' :: ' ' ::
        ('"' :: (entryBodyChars cs m st ++ '"' :: '\x7d' :: rest))))))))))) := by
    simp only [entryObjChars, entryHeader, List.append_assoc]
    rfl
  rw [hshape]
  rw [pv_obj (skipWs_lbrace _)]
  rw [pm_key (skipWs_quote _)]
  exact pml_entry u m _ _ rest hu hm hK3 (strBodyOk_entryBody cs m st)

/-- Parsing the serialized entries of a nonempty `contents` array: the head
entry followed by the `', '`-separated tail entries, up to the closing
bracket. -/
theorem parseElementList_entries (cs : Nat) :
    ∀ (ts : List (List Char × List Char × ByteStream))
      (u m : List Char) (st : ByteStream) (rest : List Char) (f : Nat),
      (∀ c ∈ u, PlainChar c) → (∀ c ∈ m, PlainChar c) →
      (∀ x ∈ ts, EntryOk x) → ts.length + 7 ≤ f →
      parseElementList f
          (entryObjChars cs (u, m, st) ++ entriesChars cs ", ".toList ts
            ++ ']' :: rest)
        = some rest := by
  intro ts
  induction ts with
  | nil =>
    intro u m st rest f hu hm _ hf
    obtain ⟨g, rfl⟩ : ∃ g, f = g + 7 := ⟨f - 7, by omega⟩
    have hshape : entryObjChars cs (u, m, st) ++ entriesChars cs ", ".toList []
          ++ ']' :: rest = entryObjChars cs (u, m, st) ++ ']' :: rest := by
      simp [entriesChars]
    rw [hshape]
    exact (pel_step (parseValue_entry cs u m st hu hm g (']' :: rest))).2
      (skipWs_rbracket _)
  | cons e ts ih =>
    intro u m st rest f hu hm hts hf
    obtain ⟨g, rfl⟩ : ∃ g, f = g + 7 := ⟨f - 7, by omega⟩
    rcases e with ⟨u2, m2, st2⟩
    obtain ⟨hu2, hm2, -⟩ := hts _ (List.mem_cons_self _ _)
    have hshape : entryObjChars cs (u, m, st)
          ++ entriesChars cs ", ".toList ((u2, m2, st2) :: ts) ++ ']' :: rest
        = entryObjChars cs (u, m, st) ++ ',' :: ' ' ::
            (entryObjChars cs (u2, m2, st2) ++ entriesChars cs ", ".toList ts
              ++ ']' :: rest) := by
      simp only [entriesChars, List.append_assoc]
      rfl
    rw [hshape]
    rw [(pel_step (parseValue_entry cs u m st hu hm g
      (',' :: ' ' :: (entryObjChars cs (u2, m2, st2)
        ++ entriesChars cs ", ".toList ts ++ ']' :: rest)))).1 (skipWs_comma _)]
    rw [parseElementList_ws]
    exact ih u2 m2 st2 rest (g + 6) hu2 hm2
      (fun x hx => hts x (List.mem_cons_of_mem _ hx))
      (by simp only [List.length_cons] at hf; omega)

/-- Parsing the serialized `contents` array body: all entries and the
closing bracket. -/
theorem parseElements_entries (cs : Nat)
    (streams : List (List Char × List Char × ByteStream)) (rest : List Char)
    (f : Nat) (hok : ∀ x ∈ streams, EntryOk x)
    (hf : streams.length + 8 ≤ f) :
    parseElements f (entriesChars cs [] streams ++ ']' :: rest) = some rest := by
  cases streams with
  | nil =>
    obtain ⟨g, rfl⟩ : ∃ g, f = g + 1 := ⟨f - 1, by omega⟩
    exact pe_close (skipWs_rbracket rest)
  | cons e ts =>
    obtain ⟨g, rfl⟩ : ∃ g, f = g + 1 := ⟨f - 1, by omega⟩
    rcases e with ⟨u, m, st⟩
    obtain ⟨hu, hm, -⟩ := hok _ (List.mem_cons_self _ _)
    have hshape : entriesChars cs [] ((u, m, st) :: ts) ++ ']' :: rest
        = entryObjChars cs (u, m, st) ++ entriesChars cs ", ".toList ts
            ++ ']' :: rest := by
      simp [entriesChars]
    rw [hshape]
    have hh : (entryObjChars cs (u, m, st) ++ entriesChars cs ", ".toList ts
        ++ ']' :: rest).head? = some '\x7b' := rfl
    rw [pe_enter2 hh]
    exact parseElementList_entries cs ts u m st rest g hu hm
      (fun x hx => hok x (List.mem_cons_of_mem _ hx))
      (by simp only [List.length_cons] at hf; omega)

/-- Parsing the whole streamed JSON-RPC response document succeeds and
consumes everything, for any fuel at least `streams.length + 20`. -/
theorem parseValue_doc (cs : Nat) (id : RpcId)
    (streams : List (List Char × List Char × ByteStream))
    (hok : ∀ x ∈ streams, EntryOk x)
    (f : Nat) (hf : streams.length + 20 ≤ f) :
    parseValue f (streamingDocChars cs id streams) = some [] := by
  obtain ⟨g, rfl⟩ : ∃ g, f = g + 13 := ⟨f - 13, by omega⟩
  have hg : streams.length + 7 ≤ g := by omega
  have hshape : streamingDocChars cs id streams
      = '\x7b' :: '"' :: ("jsonrpc".toList ++ '"' :: ':' :: ' ' ::
        ('"' :: ("2.0".toList ++ '"' :: ',' :: ' ' ::
        ('"' :: ("id".toList ++ '"' :: ':' :: ' ' ::
        (rpcIdChars id ++ ',' :: ' ' ::
        ('"' :: ("result".toList ++ '"' :: ':' :: ' ' ::
        ('\x7b' :: '"' :: ("contents".toList ++ '"' :: ':' :: ' ' ::
        ('[' :: (entriesChars cs [] streams
          ++ ']' :: '\x7d' :: '\x7d' :: [])))))))))))) := by
    simp only [streamingDocChars, openingFragment, List.append_assoc]
    rfl
  rw [hshape]
  rw [pv_obj (skipWs_lbrace _)]
  rw [pm_key (skipWs_quote _)]
  have hval1 : parseValue (g + 10)
      (' ' :: ('"' :: ("2.0".toList ++ '"' :: ',' :: ' ' ::
        ('"' :: ("id".toList ++ '"' :: ':' :: ' ' ::
        (rpcIdChars id ++ ',' :: ' ' ::
        ('"' :: ("result".toList ++ '"' :: ':' :: ' ' ::
        ('\x7b' :: '"' :: ("contents".toList ++ '"' :: ':' :: ' ' ::
        ('[' :: (entriesChars cs [] streams
          ++ ']' :: '\x7d' :: '\x7d' :: []))))))))))))
      = some (',' :: ' ' ::
        ('"' :: ("id".toList ++ '"' :: ':' :: ' ' ::
        (rpcIdChars id ++ ',' :: ' ' ::
        ('"' :: ("result".toList ++ '"' :: ':' :: ' ' ::
        ('\x7b' :: '"' :: ("contents".toList ++ '"' :: ':' :: ' ' ::
        ('[' :: (entriesChars cs [] streams
          ++ ']' :: '\x7d' :: '\x7d' :: [])))))))))) := by
    refine pv_plain_string (skipWs_space_quote _) ?_
    exact strBodyOk_of_plain (by decide)
  rw [(pml_member (skipWs_quote _) (strBodyOk_of_plain (by decide)) hval1).1
    (skipWs_comma _)]
  have hval2 : parseValue (g + 9)
      (' ' :: (rpcIdChars id ++ ',' :: ' ' ::
        ('"' :: ("result".toList ++ '"' :: ':' :: ' ' ::
        ('\x7b' :: '"' :: ("contents".toList ++ '"' :: ':' :: ' ' ::
        ('[' :: (entriesChars cs [] streams
          ++ ']' :: '\x7d' :: '\x7d' :: []))))))))
      = some (',' :: ' ' ::
        ('"' :: ("result".toList ++ '"' :: ':' :: ' ' ::
        ('\x7b' :: '"' :: ("contents".toList ++ '"' :: ':' :: ' ' ::
        ('[' :: (entriesChars cs [] streams
          ++ ']' :: '\x7d' :: '\x7d' :: []))))))) := by
    exact pv_rpcId (g + 8) id _
  rw [(pml_member (skipWs_space_quote _) (strBodyOk_of_plain (by decide)) hval2).1
    (skipWs_comma _)]
  have hval3 : parseValue (g + 8)
      (' ' :: ('\x7b' :: '"' :: ("contents".toList ++ '"' :: ':' :: ' ' ::
        ('[' :: (entriesChars cs [] streams ++ ']' :: '\x7d' :: '\x7d' :: [])))))
      = some ('\x7d' :: []) := by
    rw [pv_obj (skipWs_space_lbrace _)]
    rw [pm_key (skipWs_quote _)]
    have hvalc : parseValue (g + 5)
        (' ' :: ('[' :: (entriesChars cs [] streams
          ++ ']' :: '\x7d' :: '\x7d' :: [])))
        = some ('\x7d' :: '\x7d' :: []) := by
      rw [pv_arr (skipWs_space_lbracket _)]
      exact parseElements_entries cs streams ('\x7d' :: '\x7d' :: []) (g + 4) hok
        (by omega)
    rw [(pml_member (skipWs_quote _) (strBodyOk_of_plain (by decide)) hvalc).2
      (skipWs_rbrace _)]
  rw [(pml_member (skipWs_space_quote _) (strBodyOk_of_plain (by decide)) hval3).2
    (skipWs_rbrace _)]

theorem entriesChars_length (cs : Nat) :
    ∀ (streams : List (List Char × List Char × ByteStream)) (sep : List Char),
      streams.length ≤ (entriesChars cs sep streams).length := by
  intro streams
  induction streams with
  | nil => intro sep; simp [entriesChars]
  | cons e ts ih =>
    intro sep
    have h1 : 1 ≤ (entryObjChars cs e).length := by
      rcases e with ⟨u, m, st⟩
      obtain ⟨t, ht⟩ : ∃ t, entryObjChars cs (u, m, st) = '\x7b' :: t := ⟨_, rfl⟩
      rw [ht]
      simp
    have h2 := ih ", ".toList
    simp only [entriesChars, List.length_append, List.length_cons]
    omega

theorem streamingDocChars_length (cs : Nat) (id : RpcId)
    (streams : List (List Char × List Char × ByteStream)) :
    streams.length + 20 ≤ (streamingDocChars cs id streams).length + 1 := by
  have h1 := entriesChars_length cs streams []
  have h2 : (openingFragment id).length = 51 + (rpcIdChars id).length := by
    have ha : ("\x7b\"jsonrpc\": \"2.0\", \"id\": ".toList).length = 25 := rfl
    have hb : (", \"result\": \x7b\"contents\": [".toList).length = 26 := rfl
    simp only [openingFragment, List.length_append, ha, hb]
    omega
  have h3 : ("]\x7d\x7d".toList).length = 3 := rfl
  simp only [streamingDocChars, List.length_append]
  omega

/-- The document produced by the streaming encoder is a syntactically valid
JSON text. -/
theorem jsonValid_streamingDoc (cs : Nat) (id : RpcId)
    (streams : List (List Char × List Char × ByteStream))
    (hok : ∀ x ∈ streams, EntryOk x) :
    jsonValid (streamingDocChars cs id streams) = true := by
  rw [jsonValid]
  rw [parseValue_doc cs id streams hok _ (streamingDocChars_length cs id streams)]
  rfl

/-- When every stream object agrees with its mime type's reading mode, the
generator emits its fragments and their concatenation is the documented
entry layout. -/
theorem entriesFragments_flatten (cs : Nat) :
    ∀ (streams : List (List Char × List Char × ByteStream)) (sep : List Char),
      (∀ x ∈ streams, streamKindOk x.2.1 x.2.2 = true) →
      ∃ fs, entriesFragments cs sep streams = some fs
        ∧ fs.flatten = entriesChars cs sep streams := by
  intro streams
  induction streams with
  | nil => intro sep h; exact ⟨[], rfl, rfl⟩
  | cons e ts ih =>
    intro sep hok
    rcases e with ⟨u, m, st⟩
    have hkind : streamKindOk m st = true := hok _ (List.mem_cons_self _ _)
    have hbody : ∃ body, streamBodyFragments cs m st = some body
        ∧ body.flatten = entryBodyChars cs m st := by
      cases st with
      | bin b =>
        have hb : isBinaryMime m = true := by simpa [streamKindOk] using hkind
        refine ⟨_, ?_, rfl⟩
        simp [streamBodyFragments, hb]
      | text t =>
        have hb : isBinaryMime m = false := by simpa [streamKindOk] using hkind
        refine ⟨_, ?_, rfl⟩
        simp [streamBodyFragments, hb]
    obtain ⟨body, hb1, hb2⟩ := hbody
    obtain ⟨fs, hf1, hf2⟩ := ih ", ".toList (fun x hx => hok x (List.mem_cons_of_mem _ hx))
    refine ⟨entryHeader sep u m (isBinaryMime m) :: (body ++ ("\"\x7d".toList :: fs)),
      ?_, ?_⟩
    · have hf1s : entriesFragments cs [',', ' '] ts = some fs := hf1
      simp [entriesFragments, hb1, hf1s]
    · simp only [List.flatten_cons, List.flatten_append, hf2, hb2]
      simp [entriesChars, entryObjChars, entryHeader, List.append_assoc]

/-- C1: counterexample — the encoder interpolates the uri into the document
without any escaping, so a uri containing a double quote makes the
concatenation of the yielded fragments syntactically invalid JSON
(chunk size 3, null id, one text stream under mime type `text/plain`). -/
theorem C1_streaming_counterexample :
    (create_rpc_streaming_response 3 RpcId.null
        [(['x', '"'], "text/plain".toList, ByteStream.text ['a'])]).map
        (fun fs => jsonValid fs.flatten) = some false := by
  decide

/-- C1 (amended): for every chunk size, request id, and finite list of
(uri, mime_type, stream) triples whose uri and mime type consist of
characters legal bare inside a JSON string and whose stream object agrees
with the mime type's reading mode, the streaming encoder yields fragments
whose concatenation is exactly the documented layout — the opening
fragment; for each triple a separator (omitted before the first), a header
carrying the uri and mimeType whose body key is 'blob' iff the mime type
does not start with 'text/', the body (concatenated base64 chunks for
binary streams, quote-stripped JSON string encodings of the chunks for
text streams), and a closing quote-and-brace; and a final ']\x7d\x7d' —
and that concatenation is a syntactically valid JSON document. -/
theorem C1_streaming_encoder (cs : Nat) (id : RpcId)
    (streams : List (List Char × List Char × ByteStream))
    (hok : ∀ x ∈ streams, EntryOk x) :
    ∃ fs, create_rpc_streaming_response cs id streams = some fs
      ∧ fs.flatten = streamingDocChars cs id streams
      ∧ jsonValid (streamingDocChars cs id streams) = true := by
  obtain ⟨efs, he1, he2⟩ := entriesFragments_flatten cs streams []
    (fun x hx => (hok x hx).2.2)
  refine ⟨openingFragment id :: (efs ++ ["]\x7d\x7d".toList]), ?_, ?_,
    jsonValid_streamingDoc cs id streams hok⟩
  · simp [create_rpc_streaming_response, he1]
  · simp [List.flatten_cons, List.flatten_append, he2, streamingDocChars,
      List.append_assoc]

/-- Witness for C1 at a concrete input: one well-formed text entry. -/
theorem C1_streaming_encoder_witness :
    (∀ x ∈ [((['x'], "text/plain".toList, ByteStream.text ['h', 'i']) :
        List Char × List Char × ByteStream)], EntryOk x)
    ∧ ∃ fs, create_rpc_streaming_response 3 (RpcId.num 7)
          [(['x'], "text/plain".toList, ByteStream.text ['h', 'i'])] = some fs
        ∧ fs.flatten = streamingDocChars 3 (RpcId.num 7)
            [(['x'], "text/plain".toList, ByteStream.text ['h', 'i'])]
        ∧ jsonValid (streamingDocChars 3 (RpcId.num 7)
            [(['x'], "text/plain".toList, ByteStream.text ['h', 'i'])]) = true :=
  ⟨by decide, C1_streaming_encoder 3 (RpcId.num 7)
    [(['x'], "text/plain".toList, ByteStream.text ['h', 'i'])] (by decide)⟩

end MCPSpec
